import Mathlib

/-!
Verification of the slot-based SBE stage builder
(`src/mongo/db/query/sbe_stage_builder.cpp`).

The development shallowly embeds the data model and the translators of the
stage builder:

* index-key rehydration (`buildKeyPatternTree`, `buildNewObjExpr`,
  `rehydrateIndexKey`) together with a small value semantics for the
  produced `newObj` expressions;
* the requirements / slot-bindings contracts (`PlanStageReqs`,
  `PlanStageSlots`);
* the recursive lowering pass (`build`) for the node kinds exercised by the
  properties under study (collection scan, virtual scan, index scan, fetch,
  limit, skip, sort, eof, sharding filter), including the tailable-cursor
  union rewrite and the covered shard-filter path.

Machine integers (slot ids, plan node ids) are modelled as `Nat`; BSON key
patterns are modelled as lists of dotted field names, split into path
components the way `FieldRef` splits them.  External collaborators that are
declared but not defined in this translation unit (`generateCollScan`,
`generateIndexScan`, `generateVirtualScanMulti`, `generateFilter`,
`makeIndexKeyInclusionSet`, `makeIndexKeyOutputSlotsMatchingParentReqs`)
are modelled from the specification; their doc comments say so explicitly.
-/

namespace StageBuilder

/-- Slot ids (`sbe::value::SlotId`) are modelled as natural numbers. -/
abbrev SlotId := Nat

/-- BSON-like runtime values: opaque scalars and ordered objects.  Field
lookup takes the first field with a matching name, as `getField` does. -/
inductive Value where
  | scalar (n : Nat)
  | obj (fields : List (String × Value))

/-- Binary operators of the SBE expression language used by the builder
(`sbe::EPrimBinary`). -/
inductive BinOp where
  | logicOr
  | logicAnd
  | less
  | greater
  | lessEq
  | cmp3w
  | add
  | fillEmpty
deriving DecidableEq, Repr

/-- Unary operators of the SBE expression language (`sbe::EPrimUnary`);
`makeNot` produces `logicNot`. -/
inductive UnOp where
  | logicNot
deriving DecidableEq, Repr

/-- The SBE expression language (`sbe::EExpression`), restricted to the
constructors the stage builder emits.  Opaque compile-time constants
(time-zone database, collator, FTS matcher, shard filterer, sort spec) are
represented by `constOpaque` with a tag. -/
inductive EExpr where
  | evar (s : SlotId)
  | localVar (frame : Nat) (idx : Nat)
  | constStr (s : String)
  | constNothing
  | constNull
  | constUndefined
  | constInt32 (n : Int)
  | constInt64 (n : Int)
  | constBool (b : Bool)
  | constOpaque (tag : String)
  | func (name : String) (args : List EExpr)
  | binop (op : BinOp) (lhs rhs : EExpr)
  | unop (op : UnOp) (arg : EExpr)
  | eif (cond thn els : EExpr)
  | efail (code : Nat) (msg : String)
  | localBind (frame : Nat) (binds : List EExpr) (body : EExpr)

/-- Helper mirroring `makeFunction`. -/
def makeFunction (name : String) (args : List EExpr) : EExpr :=
  .func name args

/-- Helper mirroring `makeVariable`. -/
def makeVariable (s : SlotId) : EExpr :=
  .evar s

/-- Helper mirroring `makeNot`. -/
def makeNot (e : EExpr) : EExpr :=
  .unop .logicNot e

/-- Helper mirroring `makeBinaryOp` (without a collator argument). -/
def makeBinaryOp (op : BinOp) (lhs rhs : EExpr) : EExpr :=
  .binop op lhs rhs

/-- Helper mirroring `makeFillEmptyNull`: `fillEmpty(e, null)`. -/
def makeFillEmptyNull (e : EExpr) : EExpr :=
  .binop .fillEmpty e .constNull

/-- Helper mirroring `makeFillEmptyUndefined`: `fillEmpty(e, undefined)`. -/
def makeFillEmptyUndefined (e : EExpr) : EExpr :=
  .binop .fillEmpty e .constUndefined

/-! ## Index-key rehydration (`IndexKeyPatternTreeNode`) -/

/-- Tree representation of an index key pattern
(`IndexKeyPatternTreeNode`).  `children` stores the child map together with
the insertion order (`children` + `childrenOrder` in the C++ struct collapse
to one ordered association list); `slotOf` is `indexKeySlot`, which may be
`none` for non-leaf nodes. -/
inductive TrieNode where
  | node (children : List (String × TrieNode)) (slotOf : Option SlotId)

/-- The slot stored at a trie node (`indexKeySlot`). -/
def TrieNode.slotOf : TrieNode → Option SlotId
  | .node _ s => s

/-- The ordered children of a trie node. -/
def TrieNode.children : TrieNode → List (String × TrieNode)
  | .node cs _ => cs

/-- First child with the given field name (`StringMap::find`; names are
unique by construction, so first-match lookup agrees with map lookup). -/
def lookupChild : List (String × TrieNode) → String → Option TrieNode
  | [], _ => none
  | (k, c) :: rest, f => if k = f then some c else lookupChild rest f

/-- Replace the first child with the given name, keeping insertion order. -/
def replaceChild : List (String × TrieNode) → String → TrieNode → List (String × TrieNode)
  | [], _, _ => []
  | (k, c) :: rest, f, c' =>
      if k = f then (k, c') :: rest else (k, c) :: replaceChild rest f c'

/-- A fresh chain of nodes for the remaining components of a path, ending in
a leaf bound to the given slot (the repeated `emplace` calls for a path all
of whose remaining components are new). -/
def mkChain : List String → SlotId → TrieNode
  | [], s => .node [] (some s)
  | p :: rest, s => .node [(p, mkChain rest s)] none

/-- Insertion of one key-pattern element into the trie: the body of the
`for (auto&& elem : keyPattern)` loop of `buildKeyPatternTree`.  Walking the
components of the path, an existing child whose `indexKeySlot` is already
set short-circuits the whole element (`skipElem`), missing children are
emplaced, and the final node receives the slot. -/
def insertPath (t : TrieNode) (path : List String) (s : SlotId) : TrieNode :=
  match path, t with
  | [], .node cs _ => .node cs (some s)
  | p :: rest, .node cs sl =>
    match lookupChild cs p with
    | some c =>
        if c.slotOf.isSome then .node cs sl
        else .node (replaceChild cs p (insertPath c rest s)) sl
    | none => .node (cs ++ [(p, mkChain rest s)]) sl

/-- Builds the `IndexKeyPatternTreeNode` for a key pattern
(`buildKeyPatternTree`).  The key pattern is given as the list of its
dotted paths already split into components (the `FieldRef` view of each
element), paired positionally with the slot vector. -/
def buildKeyPatternTree (keyPattern : List (List String)) (slots : List SlotId) : TrieNode :=
  (keyPattern.zip slots).foldl (fun t ps => insertPath t ps.1 ps.2) (.node [] none)

mutual
/-- Constructs the SBE expression producing a partial object from an index
key (`buildNewObjExpr`): a `newObj` call whose arguments alternate between
field-name constants and either the bound slot variable or a recursive
`newObj` for the subtree.  A node whose slot is set hides its children. -/
def buildNewObjExpr : TrieNode → EExpr
  | .node cs _ => .func "newObj" (buildNewObjArgs cs)

/-- Argument list of the `newObj` emitted by `buildNewObjExpr`, following
the children in insertion order. -/
def buildNewObjArgs : List (String × TrieNode) → List EExpr
  | [] => []
  | (name, c) :: rest =>
      .constStr name ::
        (match c.slotOf with
         | some s => .evar s
         | none => buildNewObjExpr c) :: buildNewObjArgs rest
end

/-! ## Evaluation of rehydration expressions -/

mutual
/-- Evaluates the fragment of the expression language that rehydration
expressions use: slot variables read the environment and `newObj` builds an
ordered object from alternating name/value arguments.  Everything else is
outside the fragment and evaluates to `none`. -/
def evalExpr (env : SlotId → Value) : EExpr → Option Value
  | .evar s => some (env s)
  | .func name args =>
      if name = "newObj" then (evalNewObjArgs env args).map Value.obj else none
  | _ => none

/-- Evaluates the alternating name/value argument list of a `newObj`. -/
def evalNewObjArgs (env : SlotId → Value) : List EExpr → Option (List (String × Value))
  | [] => some []
  | .constStr f :: v :: rest =>
      match evalExpr env v, evalNewObjArgs env rest with
      | some val, some r => some ((f, val) :: r)
      | _, _ => none
  | _ => none
end

/-- Field lookup on a value (`getField`): first field with a matching name
of an object, `none` on non-objects. -/
def getField : Value → String → Option Value
  | .obj fields, f =>
      match fields.find? (fun p => p.1 = f) with
      | some p => some p.2
      | none => none
  | .scalar _, _ => none

/-- Dotted-path extraction: iterated `getField` along the components. -/
def extractPath (v : Value) (path : List String) : Option Value :=
  match path with
  | [] => some v
  | f :: rest =>
      match getField v f with
      | some v' => extractPath v' rest
      | none => none

/-- One component path is an initial segment of another. -/
def pathLE (q p : List String) : Prop :=
  ∃ r, q ++ r = p

theorem pathLE_nil (p : List String) : pathLE [] p :=
  ⟨p, rfl⟩

theorem pathLE_refl (p : List String) : pathLE p p :=
  ⟨[], by simp⟩

theorem pathLE_cons_iff {a b : String} {q p : List String} :
    pathLE (a :: q) (b :: p) ↔ a = b ∧ pathLE q p := by
  constructor
  · rintro ⟨r, h⟩
    injection h with h1 h2
    exact ⟨h1, r, h2⟩
  · rintro ⟨rfl, r, rfl⟩
    exact ⟨r, rfl⟩

theorem not_pathLE_cons_nil {a : String} {q : List String} : ¬ pathLE (a :: q) [] := by
  rintro ⟨r, h⟩
  simp at h

instance pathLE.dec : ∀ q p : List String, Decidable (pathLE q p)
  | [], p => isTrue ⟨p, rfl⟩
  | _ :: _, [] => isFalse not_pathLE_cons_nil
  | a :: q, b :: p =>
      haveI := pathLE.dec q p
      decidable_of_iff (a = b ∧ pathLE q p) pathLE_cons_iff.symm

/-- A path is a strict prefix of another if it is a proper initial segment
of its component list. -/
def strictPrefixOf (q p : List String) : Prop :=
  pathLE q p ∧ q ≠ p

instance (q p : List String) : Decidable (strictPrefixOf q p) := by
  unfold strictPrefixOf
  infer_instance

mutual
/-- All slot variables occurring in an expression, in occurrence order. -/
def exprSlots : EExpr → List SlotId
  | .evar s => [s]
  | .func _ args => exprSlotsList args
  | .binop _ lhs rhs => exprSlots lhs ++ exprSlots rhs
  | .unop _ arg => exprSlots arg
  | .eif c t e => exprSlots c ++ exprSlots t ++ exprSlots e
  | .localBind _ binds body => exprSlotsList binds ++ exprSlots body
  | _ => []

/-- Slot variables occurring in a list of expressions. -/
def exprSlotsList : List EExpr → List SlotId
  | [] => []
  | e :: rest => exprSlots e ++ exprSlotsList rest
end

/-! ## Trie infrastructure for the rehydration proofs -/

/-- Descends the trie along a component path. -/
def findNode (t : TrieNode) : List String → Option TrieNode
  | [] => some t
  | p :: rest =>
    match lookupChild t.children p with
    | some c => findNode c rest
    | none => none

/-- The slot bound at the node reached by a path, if any. -/
def slotAt (t : TrieNode) (p : List String) : Option SlotId :=
  (findNode t p).bind TrieNode.slotOf

mutual
/-- The value denoted by a trie under a slot environment: the object whose
fields follow the children in order, a slotted child contributing the
environment value of its slot and an unslotted child contributing its own
object recursively.  This is the semantic mirror of `buildNewObjExpr`. -/
def trieValue (env : SlotId → Value) : TrieNode → Value
  | .node cs _ => .obj (trieFields env cs)

/-- Field list of `trieValue`. -/
def trieFields (env : SlotId → Value) : List (String × TrieNode) → List (String × Value)
  | [] => []
  | (n, c) :: rest =>
      (n, match c.slotOf with
          | some s => env s
          | none => trieValue env c) :: trieFields env rest
end

mutual
/-- Well-formedness of a trie: the children of every node have distinct
names.  This holds for every trie built by `buildKeyPatternTree` because
`emplace` is only called when `StringMap::find` fails. -/
def TrieWF : TrieNode → Prop
  | .node cs _ => (cs.map Prod.fst).Nodup ∧ TrieWFL cs

/-- Well-formedness of a child list. -/
def TrieWFL : List (String × TrieNode) → Prop
  | [] => True
  | (_, c) :: rest => TrieWF c ∧ TrieWFL rest
end

theorem lookupChild_append_ne {cs : List (String × TrieNode)} {a b : String}
    {c : TrieNode} (h : b ≠ a) :
    lookupChild (cs ++ [(a, c)]) b = lookupChild cs b := by
  induction cs with
  | nil => simp [lookupChild, Ne.symm h]
  | cons hd tl ih =>
      obtain ⟨k, c0⟩ := hd
      by_cases hk : k = b <;> simp [lookupChild, hk, ih]

theorem lookupChild_append_self {cs : List (String × TrieNode)} {a : String}
    {c : TrieNode} (h : lookupChild cs a = none) :
    lookupChild (cs ++ [(a, c)]) a = some c := by
  induction cs with
  | nil => simp [lookupChild]
  | cons hd tl ih =>
      obtain ⟨k, c0⟩ := hd
      by_cases hk : k = a
      · simp [lookupChild, hk] at h
      · simp [lookupChild, hk] at h ⊢
        exact ih h

theorem lookupChild_replaceChild_ne {cs : List (String × TrieNode)} {a b : String}
    {c' : TrieNode} (h : b ≠ a) :
    lookupChild (replaceChild cs a c') b = lookupChild cs b := by
  induction cs with
  | nil => simp [replaceChild, lookupChild]
  | cons hd tl ih =>
      obtain ⟨k, c0⟩ := hd
      by_cases hk : k = a
      · subst hk
        simp [replaceChild, lookupChild, Ne.symm h]
      · by_cases hb : k = b
        · simp [replaceChild, lookupChild, hk, hb, h]
        · simp [replaceChild, lookupChild, hk, hb, ih]

theorem lookupChild_replaceChild_self {cs : List (String × TrieNode)} {a : String}
    {c c' : TrieNode} (h : lookupChild cs a = some c) :
    lookupChild (replaceChild cs a c') a = some c' := by
  induction cs with
  | nil => simp [lookupChild] at h
  | cons hd tl ih =>
      obtain ⟨k, c0⟩ := hd
      by_cases hk : k = a
      · simp [replaceChild, lookupChild, hk]
      · simp [lookupChild, hk] at h
        simp [replaceChild, lookupChild, hk, ih h]

theorem replaceChild_self {cs : List (String × TrieNode)} {a : String}
    {c : TrieNode} (h : lookupChild cs a = some c) :
    replaceChild cs a c = cs := by
  induction cs with
  | nil => simp [lookupChild] at h
  | cons hd tl ih =>
      obtain ⟨k, c0⟩ := hd
      by_cases hk : k = a
      · subst hk
        simp [lookupChild] at h
        simp [replaceChild, h]
      · simp [lookupChild, hk] at h
        simp [replaceChild, hk, ih h]

theorem findNode_cons {t : TrieNode} {a : String} {qr : List String} :
    findNode t (a :: qr) =
      match lookupChild t.children a with
      | some c => findNode c qr
      | none => none := rfl

theorem slotAt_cons_some {t c : TrieNode} {a : String} {qr : List String}
    (h : lookupChild t.children a = some c) :
    slotAt t (a :: qr) = slotAt c qr := by
  simp [slotAt, findNode_cons, h]

theorem slotAt_cons_none {t : TrieNode} {a : String} {qr : List String}
    (h : lookupChild t.children a = none) :
    slotAt t (a :: qr) = none := by
  simp [slotAt, findNode_cons, h]

theorem slotAt_mkChain {rest q : List String} {s : SlotId} :
    slotAt (mkChain rest s) q = if q = rest then some s else none := by
  induction rest generalizing q with
  | nil =>
      cases q with
      | nil => simp [mkChain, slotAt, findNode, TrieNode.slotOf]
      | cons b qr =>
          rw [slotAt_cons_none (by simp [mkChain, TrieNode.children, lookupChild])]
          simp
  | cons a rest ih =>
      cases q with
      | nil => simp [mkChain, slotAt, findNode, TrieNode.slotOf]
      | cons b qr =>
          by_cases hb : b = a
          · subst hb
            rw [slotAt_cons_some
                (show lookupChild (mkChain (b :: rest) s).children b = some (mkChain rest s) by
                  simp [mkChain, TrieNode.children, lookupChild]), ih]
            by_cases hq : qr = rest <;> simp [hq]
          · rw [slotAt_cons_none
                (by simp [mkChain, TrieNode.children, lookupChild, Ne.symm hb])]
            simp [hb]

theorem slotAt_nil {cs : List (String × TrieNode)} {sl : Option SlotId} :
    slotAt (.node cs sl) [] = sl := rfl

theorem slotAt_nil_eq {t : TrieNode} : slotAt t [] = t.slotOf := by
  obtain ⟨cs, sl⟩ := t
  rfl

theorem children_node {cs : List (String × TrieNode)} {sl : Option SlotId} :
    (TrieNode.node cs sl).children = cs := rfl

/-- Unfolding lemma: inserting the empty path sets the root slot. -/
theorem insertPath_nil {cs : List (String × TrieNode)} {sl : Option SlotId} {s : SlotId} :
    insertPath (.node cs sl) [] s = .node cs (some s) := rfl

/-- Unfolding lemma: the first component is new, so a fresh chain is
emplaced at the end of the child list. -/
theorem insertPath_cons_new {cs : List (String × TrieNode)} {sl : Option SlotId}
    {a : String} {rest : List String} {s : SlotId} (hc : lookupChild cs a = none) :
    insertPath (.node cs sl) (a :: rest) s = .node (cs ++ [(a, mkChain rest s)]) sl := by
  simp [insertPath, hc]

/-- Unfolding lemma: the first component leads to a child whose slot is
already set, so the whole element is skipped. -/
theorem insertPath_cons_skip {cs : List (String × TrieNode)} {sl : Option SlotId}
    {a : String} {rest : List String} {s s0 : SlotId} {c : TrieNode}
    (hc : lookupChild cs a = some c) (hs : c.slotOf = some s0) :
    insertPath (.node cs sl) (a :: rest) s = .node cs sl := by
  simp [insertPath, hc, hs]

/-- Unfolding lemma: the first component leads to an unslotted child, so
insertion recurses into that child. -/
theorem insertPath_cons_rec {cs : List (String × TrieNode)} {sl : Option SlotId}
    {a : String} {rest : List String} {s : SlotId} {c : TrieNode}
    (hc : lookupChild cs a = some c) (hs : c.slotOf = none) :
    insertPath (.node cs sl) (a :: rest) s
      = .node (replaceChild cs a (insertPath c rest s)) sl := by
  simp [insertPath, hc, hs]

/-- Two nodes whose child lookup agrees at the head component have the same
slot at any path starting with that component. -/
theorem slotAt_cons_congr {cs cs' : List (String × TrieNode)} {sl sl' : Option SlotId}
    {b : String} {qr : List String} (h : lookupChild cs' b = lookupChild cs b) :
    slotAt (.node cs' sl') (b :: qr) = slotAt (.node cs sl) (b :: qr) := by
  cases hc : lookupChild cs b with
  | some c =>
      rw [slotAt_cons_some (show lookupChild (TrieNode.node cs' sl').children b = some c by
          rw [children_node, h, hc]),
        slotAt_cons_some (show lookupChild (TrieNode.node cs sl).children b = some c by
          rw [children_node, hc])]
  | none =>
      rw [slotAt_cons_none (show lookupChild (TrieNode.node cs' sl').children b = none by
          rw [children_node, h, hc]),
        slotAt_cons_none (show lookupChild (TrieNode.node cs sl).children b = none by
          rw [children_node, hc])]

/-- Inserting a path can only change the slot stored at that very path. -/
theorem slotAt_insertPath_ne {p : List String} :
    ∀ {t : TrieNode} {q : List String} {s : SlotId}, q ≠ p →
      slotAt (insertPath t p s) q = slotAt t q := by
  induction p with
  | nil =>
      intro t q s hq
      obtain ⟨cs, sl⟩ := t
      rw [insertPath_nil]
      cases q with
      | nil => exact absurd rfl hq
      | cons b qr => exact slotAt_cons_congr rfl
  | cons a rest ih =>
      intro t q s hq
      obtain ⟨cs, sl⟩ := t
      cases hc : lookupChild cs a with
      | none =>
          rw [insertPath_cons_new hc]
          cases q with
          | nil => rfl
          | cons b qr =>
              by_cases hb : b = a
              · subst hb
                have hq' : qr ≠ rest := fun hh => hq (hh ▸ rfl)
                rw [slotAt_cons_some (show lookupChild
                      (TrieNode.node (cs ++ [(b, mkChain rest s)]) sl).children b
                      = some (mkChain rest s) by
                    rw [children_node]; exact lookupChild_append_self hc),
                  slotAt_cons_none (show lookupChild (TrieNode.node cs sl).children b = none by
                    rw [children_node, hc]),
                  slotAt_mkChain]
                simp [hq']
              · exact slotAt_cons_congr (lookupChild_append_ne hb)
      | some c =>
          cases hs : c.slotOf with
          | some s0 => rw [insertPath_cons_skip hc hs]
          | none =>
              rw [insertPath_cons_rec hc hs]
              cases q with
              | nil => rfl
              | cons b qr =>
                  by_cases hb : b = a
                  · subst hb
                    have hq' : qr ≠ rest := fun hh => hq (hh ▸ rfl)
                    rw [slotAt_cons_some (show lookupChild
                          (TrieNode.node (replaceChild cs b (insertPath c rest s)) sl).children b
                          = some (insertPath c rest s) by
                        rw [children_node]; exact lookupChild_replaceChild_self hc),
                      slotAt_cons_some (show lookupChild (TrieNode.node cs sl).children b
                          = some c by rw [children_node, hc]),
                      ih hq']
                  · exact slotAt_cons_congr (lookupChild_replaceChild_ne hb)

/-- Whatever slot the inserted path ends up with is either the old one or
the inserted one. -/
theorem slotAt_insertPath_self {p : List String} :
    ∀ {t : TrieNode} {s v : SlotId}, slotAt (insertPath t p s) p = some v →
      slotAt t p = some v ∨ v = s := by
  induction p with
  | nil =>
      intro t s v h
      obtain ⟨cs, sl⟩ := t
      rw [insertPath_nil, slotAt_nil] at h
      exact Or.inr (Option.some_inj.mp h).symm
  | cons a rest ih =>
      intro t s v h
      obtain ⟨cs, sl⟩ := t
      cases hc : lookupChild cs a with
      | none =>
          rw [insertPath_cons_new hc,
            slotAt_cons_some (show lookupChild
                (TrieNode.node (cs ++ [(a, mkChain rest s)]) sl).children a
                = some (mkChain rest s) by
              rw [children_node]; exact lookupChild_append_self hc),
            slotAt_mkChain, if_pos rfl] at h
          exact Or.inr (Option.some_inj.mp h).symm
      | some c =>
          cases hs : c.slotOf with
          | some s0 =>
              rw [insertPath_cons_skip hc hs] at h
              exact Or.inl h
          | none =>
              rw [insertPath_cons_rec hc hs,
                slotAt_cons_some (show lookupChild
                    (TrieNode.node (replaceChild cs a (insertPath c rest s)) sl).children a
                    = some (insertPath c rest s) by
                  rw [children_node]; exact lookupChild_replaceChild_self hc)] at h
              rcases ih h with h' | h'
              · exact Or.inl (by rw [slotAt_cons_some (show lookupChild
                    (TrieNode.node cs sl).children a = some c by rw [children_node, hc])]; exact h')
              · exact Or.inr h'

/-- If no nonempty initial segment of the path is already slotted, the
insertion is not skipped and binds the inserted slot at the full path. -/
theorem slotAt_insertPath_sets {p : List String} :
    ∀ {t : TrieNode} {s : SlotId},
      (∀ q, q ≠ [] → pathLE q p → slotAt t q = none) →
      slotAt (insertPath t p s) p = some s := by
  induction p with
  | nil =>
      intro t s _
      obtain ⟨cs, sl⟩ := t
      rw [insertPath_nil, slotAt_nil]
  | cons a rest ih =>
      intro t s hnone
      obtain ⟨cs, sl⟩ := t
      cases hc : lookupChild cs a with
      | none =>
          rw [insertPath_cons_new hc,
            slotAt_cons_some (show lookupChild
                (TrieNode.node (cs ++ [(a, mkChain rest s)]) sl).children a
                = some (mkChain rest s) by
              rw [children_node]; exact lookupChild_append_self hc),
            slotAt_mkChain, if_pos rfl]
      | some c =>
          have hs : c.slotOf = none := by
            have := hnone [a] (by simp) ⟨rest, rfl⟩
            rwa [slotAt_cons_some (show lookupChild (TrieNode.node cs sl).children a = some c by
                rw [children_node, hc]), slotAt_nil_eq] at this
          rw [insertPath_cons_rec hc hs,
            slotAt_cons_some (show lookupChild
                (TrieNode.node (replaceChild cs a (insertPath c rest s)) sl).children a
                = some (insertPath c rest s) by
              rw [children_node]; exact lookupChild_replaceChild_self hc)]
          refine ih fun q hq hle => ?_
          have := hnone (a :: q) (by simp) (by
            obtain ⟨r, rfl⟩ := hle
            exact ⟨r, rfl⟩)
          rwa [slotAt_cons_some (show lookupChild (TrieNode.node cs sl).children a = some c by
              rw [children_node, hc])] at this

/-- If some nonempty initial segment of the path is already slotted, the
element is skipped and the trie is unchanged. -/
theorem insertPath_skip {p : List String} :
    ∀ {t : TrieNode} {s : SlotId} {q : List String},
      q ≠ [] → pathLE q p → slotAt t q ≠ none →
      insertPath t p s = t := by
  induction p with
  | nil =>
      intro t s q hq hle _
      obtain ⟨r, hr⟩ := hle
      cases q with
      | nil => exact absurd rfl hq
      | cons b qr => simp at hr
  | cons a rest ih =>
      intro t s q hq hle hslot
      obtain ⟨cs, sl⟩ := t
      cases q with
      | nil => exact absurd rfl hq
      | cons b qr =>
          obtain ⟨hb, hle'⟩ := pathLE_cons_iff.mp hle
          subst hb
          cases hc : lookupChild cs b with
          | none =>
              exact absurd (slotAt_cons_none (by rw [children_node, hc])) hslot
          | some c =>
              have hsc : slotAt c qr ≠ none := by
                rw [slotAt_cons_some (show lookupChild (TrieNode.node cs sl).children b
                    = some c by rw [children_node, hc])] at hslot
                exact hslot
              cases hs : c.slotOf with
              | some s0 => exact insertPath_cons_skip hc hs
              | none =>
                  have hqr : qr ≠ [] := by
                    intro hnil
                    subst hnil
                    exact hsc (by rw [slotAt_nil_eq]; exact hs)
                  rw [insertPath_cons_rec hc hs, ih hqr hle' hsc, replaceChild_self hc]

/-- Already-bound slots survive later insertions of nonempty paths. -/
theorem slotAt_insertPath_mono {t : TrieNode} {p r : List String} {s v : SlotId}
    (hp : p ≠ []) (h : slotAt t r = some v) :
    slotAt (insertPath t p s) r = some v := by
  by_cases hr : r = p
  · subst hr
    rw [insertPath_skip hp (pathLE_refl r) (by rw [h]; exact fun hh => by cases hh)]
    exact h
  · rw [slotAt_insertPath_ne hr]
    exact h

/-- After inserting a nonempty path, some nonempty initial segment of it is
slotted (the full path on success, the short-circuiting node on a skip). -/
theorem insertPath_slotted_exists {p : List String} :
    ∀ {t : TrieNode} {s : SlotId}, p ≠ [] →
      ∃ q, q ≠ [] ∧ pathLE q p ∧ slotAt (insertPath t p s) q ≠ none := by
  induction p with
  | nil => intro t s hp; exact absurd rfl hp
  | cons a rest ih =>
      intro t s _
      obtain ⟨cs, sl⟩ := t
      cases hc : lookupChild cs a with
      | none =>
          refine ⟨a :: rest, by simp, pathLE_refl _, ?_⟩
          rw [insertPath_cons_new hc,
            slotAt_cons_some (show lookupChild
                (TrieNode.node (cs ++ [(a, mkChain rest s)]) sl).children a
                = some (mkChain rest s) by
              rw [children_node]; exact lookupChild_append_self hc),
            slotAt_mkChain, if_pos rfl]
          exact fun hh => by cases hh
      | some c =>
          cases hs : c.slotOf with
          | some s0 =>
              refine ⟨[a], by simp, ⟨rest, rfl⟩, ?_⟩
              rw [insertPath_cons_skip hc hs,
                slotAt_cons_some (show lookupChild (TrieNode.node cs sl).children a = some c by
                  rw [children_node, hc]), slotAt_nil_eq, hs]
              exact fun hh => by cases hh
          | none =>
              cases rest with
              | nil =>
                  refine ⟨[a], by simp, pathLE_refl _, ?_⟩
                  rw [insertPath_cons_rec hc hs,
                    slotAt_cons_some (show lookupChild
                        (TrieNode.node (replaceChild cs a (insertPath c [] s)) sl).children a
                        = some (insertPath c [] s) by
                      rw [children_node]; exact lookupChild_replaceChild_self hc),
                    slotAt_nil_eq]
                  obtain ⟨ccs, csl⟩ := c
                  rw [insertPath_nil]
                  exact fun hh => by cases hh
              | cons r1 r2 =>
                  obtain ⟨q', hq', hle', hslot'⟩ := ih (t := c) (s := s) (by simp)
                  refine ⟨a :: q', by simp, ?_, ?_⟩
                  · obtain ⟨r, hr⟩ := hle'
                    exact ⟨r, by rw [List.cons_append, hr]⟩
                  · rw [insertPath_cons_rec hc hs,
                      slotAt_cons_some (show lookupChild
                          (TrieNode.node (replaceChild cs a
                            (insertPath c (r1 :: r2) s)) sl).children a
                          = some (insertPath c (r1 :: r2) s) by
                        rw [children_node]; exact lookupChild_replaceChild_self hc)]
                    exact hslot'

theorem slotAt_empty {q : List String} : slotAt (.node [] none) q = none := by
  cases q with
  | nil => rfl
  | cons b qr => exact slotAt_cons_none (by rw [children_node]; rfl)

/-- Provenance over a fold of insertions: every slot in the result either
was there before or comes from one of the inserted elements, at exactly its
own path. -/
theorem slotAt_foldl_insert {l : List (List String × SlotId)} :
    ∀ {t : TrieNode} {r : List String} {v : SlotId},
      slotAt (l.foldl (fun t ps => insertPath t ps.1 ps.2) t) r = some v →
      slotAt t r = some v ∨ ∃ ps ∈ l, ps.1 = r ∧ ps.2 = v := by
  induction l with
  | nil => intro t r v h; exact Or.inl h
  | cons hd tl ih =>
      intro t r v h
      obtain ⟨p0, s0⟩ := hd
      rw [List.foldl_cons] at h
      rcases ih h with h' | ⟨ps, hmem, he1, he2⟩
      · by_cases hr : r = p0
        · subst hr
          rcases slotAt_insertPath_self h' with h'' | h''
          · exact Or.inl h''
          · exact Or.inr ⟨(r, s0), List.mem_cons_self _ _, rfl, h''.symm⟩
        · rw [slotAt_insertPath_ne hr] at h'
          exact Or.inl h'
      · exact Or.inr ⟨ps, List.mem_cons_of_mem _ hmem, he1, he2⟩

/-- Slots survive a fold of insertions of nonempty paths. -/
theorem slotAt_foldl_insert_mono {l : List (List String × SlotId)} :
    ∀ {t : TrieNode} {r : List String} {v : SlotId},
      (∀ ps ∈ l, ps.1 ≠ ([] : List String)) → slotAt t r = some v →
      slotAt (l.foldl (fun t ps => insertPath t ps.1 ps.2) t) r = some v := by
  induction l with
  | nil => intro t r v _ h; exact h
  | cons hd tl ih =>
      intro t r v hne h
      obtain ⟨p0, s0⟩ := hd
      rw [List.foldl_cons]
      exact ih (fun ps hps => hne ps (List.mem_cons_of_mem _ hps))
        (slotAt_insertPath_mono (hne (p0, s0) (List.mem_cons_self _ _)) h)

/-- After a fold containing an element with a nonempty path, some nonempty
initial segment of that path carries a slot. -/
theorem slotted_of_mem_foldl {l : List (List String × SlotId)} :
    ∀ {t : TrieNode} {p : List String} {s : SlotId},
      (p, s) ∈ l → p ≠ [] → (∀ ps ∈ l, ps.1 ≠ ([] : List String)) →
      ∃ q, q ≠ [] ∧ pathLE q p ∧
        slotAt (l.foldl (fun t ps => insertPath t ps.1 ps.2) t) q ≠ none := by
  induction l with
  | nil => intro t p s hmem; cases hmem
  | cons hd tl ih =>
      intro t p s hmem hp hne
      rw [List.foldl_cons]
      rcases List.mem_cons.mp hmem with he | hmem'
      · obtain ⟨p0, s0⟩ := hd
        injection he with he1 he2
        subst he1
        obtain ⟨q, hq, hle, hslot⟩ :=
          insertPath_slotted_exists (t := t) (s := s0) hp
        refine ⟨q, hq, hle, ?_⟩
        obtain ⟨v, hv⟩ := Option.ne_none_iff_exists'.mp hslot
        rw [slotAt_foldl_insert_mono (fun ps hps => hne ps (List.mem_cons_of_mem _ hps)) hv]
        exact fun hh => by cases hh
      · exact ih hmem' hp fun ps hps => hne ps (List.mem_cons_of_mem _ hps)

/-- Central slot characterization for `buildKeyPatternTree`: a pattern path
with no strict-prefix sibling receives exactly its own slot, and no strict
initial segment of it carries a slot. -/
theorem slotAt_buildKeyPatternTree (keyPattern : List (List String)) (slots : List SlotId)
    (p : List String) (s : SlotId)
    (hlen : keyPattern.length = slots.length)
    (hnd : keyPattern.Nodup)
    (hne : ∀ q ∈ keyPattern, q ≠ ([] : List String))
    (hmem : (p, s) ∈ keyPattern.zip slots)
    (hpre : ∀ q ∈ keyPattern, ¬ strictPrefixOf q p) :
    slotAt (buildKeyPatternTree keyPattern slots) p = some s ∧
      ∀ q, q ≠ [] → strictPrefixOf q p →
        slotAt (buildKeyPatternTree keyPattern slots) q = none := by
  have hmap : (keyPattern.zip slots).map Prod.fst = keyPattern :=
    List.map_fst_zip keyPattern slots (le_of_eq hlen)
  have hfst : ∀ ps ∈ keyPattern.zip slots, ps.1 ∈ keyPattern := by
    intro ps hps
    rw [← hmap]
    exact List.mem_map_of_mem Prod.fst hps
  have hne' : ∀ ps ∈ keyPattern.zip slots, ps.1 ≠ ([] : List String) :=
    fun ps hps => hne ps.1 (hfst ps hps)
  constructor
  · -- the path itself is bound to its own slot
    obtain ⟨l1, l2, hsplit⟩ := List.append_of_mem hmem
    have hndz : ((keyPattern.zip slots).map Prod.fst).Nodup := by rw [hmap]; exact hnd
    have hp_notin_l1 : p ∉ l1.map Prod.fst := by
      rw [hsplit] at hndz
      simp only [List.map_append, List.map_cons] at hndz
      have := (List.nodup_append.mp hndz).2.2
      intro hmem1
      exact this hmem1 (List.mem_cons_self _ _)
    have hT1 : ∀ q, q ≠ [] → pathLE q p →
        slotAt (l1.foldl (fun t ps => insertPath t ps.1 ps.2) (.node [] none)) q = none := by
      intro q hq hle
      by_contra hsome
      obtain ⟨v, hv⟩ := Option.ne_none_iff_exists'.mp hsome
      rcases slotAt_foldl_insert hv with h' | ⟨ps, hmem1, he1, _⟩
      · rw [slotAt_empty] at h'
        cases h'
      · have hqk : q ∈ keyPattern := by
          rw [← he1]
          exact hfst ps (by rw [hsplit]; exact List.mem_append_left _ hmem1)
        by_cases hqp : q = p
        · subst hqp
          exact hp_notin_l1 (he1 ▸ List.mem_map_of_mem Prod.fst hmem1)
        · exact hpre q hqk ⟨hle, hqp⟩
    have hset : slotAt (insertPath
        (l1.foldl (fun t ps => insertPath t ps.1 ps.2) (.node [] none)) p s) p = some s :=
      slotAt_insertPath_sets hT1
    have hl2ne : ∀ ps ∈ l2, ps.1 ≠ ([] : List String) := by
      intro ps hps
      exact hne' ps (by rw [hsplit]; exact List.mem_append_right _ (List.mem_cons_of_mem _ hps))
    rw [buildKeyPatternTree, hsplit, List.foldl_append, List.foldl_cons]
    exact slotAt_foldl_insert_mono hl2ne hset
  · -- strict initial segments stay unslotted
    intro q hq hqpre
    by_contra hsome
    obtain ⟨v, hv⟩ := Option.ne_none_iff_exists'.mp hsome
    rcases slotAt_foldl_insert hv with h' | ⟨ps, hmem1, he1, _⟩
    · rw [slotAt_empty] at h'
      cases h'
    · exact hpre q (he1 ▸ hfst ps hmem1) (he1 ▸ hqpre)

mutual
/-- The rehydration expression of a trie evaluates to the object value of
the trie. -/
theorem evalExpr_buildNewObjExpr (env : SlotId → Value) :
    ∀ t : TrieNode, evalExpr env (buildNewObjExpr t) = some (trieValue env t)
  | .node cs sl => by
      rw [show buildNewObjExpr (.node cs sl) = .func "newObj" (buildNewObjArgs cs) from rfl,
        show trieValue env (.node cs sl) = .obj (trieFields env cs) from rfl]
      simp [evalExpr, evalNewObjArgs_buildNewObjArgs env cs]

/-- The argument list built from a child list evaluates to the field list
of the trie value. -/
theorem evalNewObjArgs_buildNewObjArgs (env : SlotId → Value) :
    ∀ cs : List (String × TrieNode),
      evalNewObjArgs env (buildNewObjArgs cs) = some (trieFields env cs)
  | [] => rfl
  | (n, c) :: rest => by
      rw [show buildNewObjArgs ((n, c) :: rest)
          = .constStr n ::
              (match c.slotOf with
               | some s => .evar s
               | none => buildNewObjExpr c) :: buildNewObjArgs rest from rfl,
        show trieFields env ((n, c) :: rest)
          = (n, match c.slotOf with
                | some s => env s
                | none => trieValue env c) :: trieFields env rest from rfl]
      cases hs : c.slotOf with
      | some s =>
          simp only [hs, evalExpr, evalNewObjArgs, evalNewObjArgs_buildNewObjArgs env rest]
      | none =>
          simp only [hs, evalNewObjArgs, evalExpr_buildNewObjExpr env c,
            evalNewObjArgs_buildNewObjArgs env rest]
end

/-- Field lookup on a trie value mirrors child lookup in the trie. -/
theorem getField_trieValue (env : SlotId → Value) (cs : List (String × TrieNode))
    (sl : Option SlotId) (a : String) :
    getField (trieValue env (.node cs sl)) a =
      match lookupChild cs a with
      | some c => some (match c.slotOf with
          | some s => env s
          | none => trieValue env c)
      | none => none := by
  rw [show trieValue env (.node cs sl) = .obj (trieFields env cs) from rfl]
  induction cs with
  | nil => rfl
  | cons hd tl ih =>
      obtain ⟨k, c⟩ := hd
      by_cases hk : k = a
      · subst hk
        rw [show trieFields env ((k, c) :: tl)
            = (k, match c.slotOf with
                  | some s => env s
                  | none => trieValue env c) :: trieFields env tl from rfl]
        simp [getField, lookupChild, List.find?]
      · rw [show trieFields env ((k, c) :: tl)
            = (k, match c.slotOf with
                  | some s => env s
                  | none => trieValue env c) :: trieFields env tl from rfl]
        simpa [getField, lookupChild, List.find?, hk] using ih

/-- Specialization of `getField_trieValue` when the child exists. -/
theorem getField_trieValue_some {env : SlotId → Value} {cs : List (String × TrieNode)}
    {sl : Option SlotId} {a : String} {c : TrieNode} (hc : lookupChild cs a = some c) :
    getField (trieValue env (.node cs sl)) a
      = some (match c.slotOf with
              | some s => env s
              | none => trieValue env c) := by
  rw [getField_trieValue, hc]

/-- Extraction along a pattern path: if the node at the path is slotted and
no strict nonempty initial segment of the path is slotted, extraction
returns the environment value of the slot. -/
theorem extractPath_trieValue {p : List String} :
    ∀ {t : TrieNode} {env : SlotId → Value} {n : TrieNode} {s : SlotId},
      p ≠ [] → findNode t p = some n → n.slotOf = some s →
      (∀ q, q ≠ [] → strictPrefixOf q p → slotAt t q = none) →
      extractPath (trieValue env t) p = some (env s) := by
  induction p with
  | nil => intro t env n s hp; exact absurd rfl hp
  | cons a rest ih =>
      intro t env n s _ hfind hslot hq
      obtain ⟨cs, sl⟩ := t
      rw [findNode_cons, children_node] at hfind
      cases hc : lookupChild cs a with
      | none => rw [hc] at hfind; cases hfind
      | some c =>
          rw [hc] at hfind
          cases rest with
          | nil =>
              have hcn : c = n := by
                injection (show some c = some n from hfind) with hh
              subst hcn
              rw [show extractPath (trieValue env (.node cs sl)) [a]
                  = (match getField (trieValue env (.node cs sl)) a with
                     | some v' => extractPath v' []
                     | none => none) from rfl,
                getField_trieValue_some hc, hslot]
              rfl
          | cons r1 r2 =>
              have hfind' : findNode c (r1 :: r2) = some n := hfind
              have hcslot : c.slotOf = none := by
                have := hq [a] (by simp)
                  ⟨⟨r1 :: r2, rfl⟩, by intro hh; cases hh⟩
                rwa [slotAt_cons_some (show lookupChild (TrieNode.node cs sl).children a
                    = some c by rw [children_node, hc]), slotAt_nil_eq] at this
              rw [show extractPath (trieValue env (.node cs sl)) (a :: r1 :: r2)
                  = (match getField (trieValue env (.node cs sl)) a with
                     | some v' => extractPath v' (r1 :: r2)
                     | none => none) from rfl,
                getField_trieValue_some hc, hcslot]
              exact ih (by simp) hfind' hslot (by
                intro q hqne hqpre
                have hpre' : strictPrefixOf (a :: q) (a :: r1 :: r2) := by
                  obtain ⟨⟨r, hr⟩, hne2⟩ := hqpre
                  exact ⟨⟨r, by rw [List.cons_append, hr]⟩,
                    by intro hh; injection hh with _ hh2; exact hne2 hh2⟩
                have := hq (a :: q) (by simp) hpre'
                rwa [slotAt_cons_some (show lookupChild (TrieNode.node cs sl).children a
                    = some c by rw [children_node, hc])] at this)

/-- C3: For every index key pattern (given as its list of dotted paths,
each nonempty and pairwise distinct) and every equally long vector of
slots, evaluating the rehydration expression built by `buildNewObjExpr`
from the `buildKeyPatternTree` trie and extracting any pattern path that
has no strictly shorter prefix in the pattern yields exactly the
environment value of that path's slot.  Paths that do have a strictly
shorter prefix in the pattern are dominated by it and are excluded, as the
claim states. -/
theorem rehydrated_key_extracts_pattern_path (keyPattern : List (List String))
    (slots : List SlotId) (env : SlotId → Value) (p : List String) (s : SlotId)
    (hlen : keyPattern.length = slots.length)
    (hnd : keyPattern.Nodup)
    (hne : ∀ q ∈ keyPattern, q ≠ ([] : List String))
    (hmem : (p, s) ∈ keyPattern.zip slots)
    (hpre : ∀ q ∈ keyPattern, ¬ strictPrefixOf q p) :
    (evalExpr env (buildNewObjExpr (buildKeyPatternTree keyPattern slots))).bind
        (fun v => extractPath v p)
      = some (env s) := by
  obtain ⟨hset, hfree⟩ :=
    slotAt_buildKeyPatternTree keyPattern slots p s hlen hnd hne hmem hpre
  rw [slotAt] at hset
  obtain ⟨n, hn, hns⟩ := Option.bind_eq_some.mp hset
  have hp : p ≠ [] := hne p (List.of_mem_zip hmem).1
  rw [evalExpr_buildNewObjExpr, Option.some_bind]
  exact extractPath_trieValue hp hn hns hfree

/-- Witness for `rehydrated_key_extracts_pattern_path` at the key pattern
of the specification example, extracting the second path. -/
theorem rehydrated_key_extracts_pattern_path_witness :
    (evalExpr (fun s => Value.scalar s)
        (buildNewObjExpr
          (buildKeyPatternTree [["a", "b"], ["x"], ["a", "c"]] [10, 11, 12]))).bind
        (fun v => extractPath v ["x"])
      = some (Value.scalar 11) :=
  rehydrated_key_extracts_pattern_path [["a", "b"], ["x"], ["a", "c"]] [10, 11, 12]
    (fun s => Value.scalar s) ["x"] 11 (by decide) (by decide) (by decide) (by decide)
    (by decide)

/-! ## Slot occurrence in the emitted rehydration expression -/

theorem lookupChild_eq_none_iff {cs : List (String × TrieNode)} {a : String} :
    lookupChild cs a = none ↔ a ∉ cs.map Prod.fst := by
  induction cs with
  | nil => simp [lookupChild]
  | cons hd tl ih =>
      obtain ⟨k, c⟩ := hd
      by_cases hk : k = a
      · subst hk
        simp [lookupChild]
      · have hka : ¬ a = k := fun hh => hk hh.symm
        simp [lookupChild, hk, ih, hka]

theorem map_fst_replaceChild {cs : List (String × TrieNode)} {a : String} {c' : TrieNode} :
    (replaceChild cs a c').map Prod.fst = cs.map Prod.fst := by
  induction cs with
  | nil => rfl
  | cons hd tl ih =>
      obtain ⟨k, c⟩ := hd
      by_cases hk : k = a <;> simp [replaceChild, hk, ih]

theorem TrieWFL_of_mem {cs : List (String × TrieNode)} (h : TrieWFL cs) :
    ∀ {nm : String} {c : TrieNode}, (nm, c) ∈ cs → TrieWF c := by
  induction cs with
  | nil => intro nm c hmem; cases hmem
  | cons hd tl ih =>
      intro nm c hmem
      obtain ⟨k, c0⟩ := hd
      rw [show TrieWFL ((k, c0) :: tl) = (TrieWF c0 ∧ TrieWFL tl) from rfl] at h
      rcases List.mem_cons.mp hmem with he | hmem'
      · injection he with he1 he2
        exact he2 ▸ h.1
      · exact ih h.2 hmem'

theorem TrieWFL_append {cs ds : List (String × TrieNode)}
    (h1 : TrieWFL cs) (h2 : TrieWFL ds) : TrieWFL (cs ++ ds) := by
  induction cs with
  | nil => exact h2
  | cons hd tl ih =>
      obtain ⟨k, c0⟩ := hd
      rw [show TrieWFL ((k, c0) :: tl) = (TrieWF c0 ∧ TrieWFL tl) from rfl] at h1
      exact show TrieWF c0 ∧ TrieWFL (tl ++ ds) from ⟨h1.1, ih h1.2⟩

theorem TrieWFL_replaceChild {cs : List (String × TrieNode)} {a : String} {c' : TrieNode}
    (h : TrieWFL cs) (hc' : TrieWF c') : TrieWFL (replaceChild cs a c') := by
  induction cs with
  | nil => exact trivial
  | cons hd tl ih =>
      obtain ⟨k, c0⟩ := hd
      rw [show TrieWFL ((k, c0) :: tl) = (TrieWF c0 ∧ TrieWFL tl) from rfl] at h
      by_cases hk : k = a
      · rw [show replaceChild ((k, c0) :: tl) a c' = (k, c') :: tl by simp [replaceChild, hk]]
        exact show TrieWF c' ∧ TrieWFL tl from ⟨hc', h.2⟩
      · rw [show replaceChild ((k, c0) :: tl) a c'
            = (k, c0) :: replaceChild tl a c' by simp [replaceChild, hk]]
        exact show TrieWF c0 ∧ TrieWFL (replaceChild tl a c') from ⟨h.1, ih h.2⟩

theorem TrieWF_mkChain {rest : List String} {s : SlotId} : TrieWF (mkChain rest s) := by
  induction rest with
  | nil => exact show ([] : List String).Nodup ∧ True from ⟨List.nodup_nil, trivial⟩
  | cons a rest ih =>
      exact show ([a] : List String).Nodup ∧ (TrieWF (mkChain rest s) ∧ True) from
        ⟨List.nodup_singleton a, ih, trivial⟩

/-- Insertion preserves well-formedness of the trie. -/
theorem TrieWF_insertPath {p : List String} :
    ∀ {t : TrieNode} {s : SlotId}, TrieWF t → TrieWF (insertPath t p s) := by
  induction p with
  | nil =>
      intro t s hwf
      obtain ⟨cs, sl⟩ := t
      rw [insertPath_nil]
      exact hwf
  | cons a rest ih =>
      intro t s hwf
      obtain ⟨cs, sl⟩ := t
      rw [show TrieWF (.node cs sl) = ((cs.map Prod.fst).Nodup ∧ TrieWFL cs) from rfl] at hwf
      cases hc : lookupChild cs a with
      | none =>
          rw [insertPath_cons_new hc]
          refine show ((cs ++ [(a, mkChain rest s)]).map Prod.fst).Nodup ∧
              TrieWFL (cs ++ [(a, mkChain rest s)]) from ⟨?_, ?_⟩
          · rw [List.map_append]
            refine List.Nodup.append hwf.1 (by simp) ?_
            intro x hx hx'
            simp only [List.map_cons, List.map_nil, List.mem_singleton] at hx'
            subst hx'
            exact lookupChild_eq_none_iff.mp hc hx
          · exact TrieWFL_append hwf.2
              (show TrieWF (mkChain rest s) ∧ True from ⟨TrieWF_mkChain, trivial⟩)
      | some c =>
          cases hs : c.slotOf with
          | some s0 =>
              rw [insertPath_cons_skip hc hs]
              exact show ((cs.map Prod.fst).Nodup ∧ TrieWFL cs) from hwf
          | none =>
              rw [insertPath_cons_rec hc hs]
              have hcwf : TrieWF c := by
                have hmem : (a, c) ∈ cs := by
                  clear hwf hs ih
                  induction cs with
                  | nil => cases hc
                  | cons hd tl ih2 =>
                      obtain ⟨k, c0⟩ := hd
                      by_cases hk : k = a
                      · subst hk
                        rw [show lookupChild ((k, c0) :: tl) k = some c0 by
                            simp [lookupChild]] at hc
                        injection hc with hc
                        subst hc
                        exact List.mem_cons_self _ _
                      · rw [show lookupChild ((k, c0) :: tl) a = lookupChild tl a by
                            simp [lookupChild, hk]] at hc
                        exact List.mem_cons_of_mem _ (ih2 hc)
                exact TrieWFL_of_mem hwf.2 hmem
              refine show (((replaceChild cs a (insertPath c rest s)).map Prod.fst).Nodup ∧
                  TrieWFL (replaceChild cs a (insertPath c rest s))) from ⟨?_, ?_⟩
              · rw [map_fst_replaceChild]
                exact hwf.1
              · exact TrieWFL_replaceChild hwf.2 (ih hcwf)

/-- The empty trie is well formed. -/
theorem TrieWF_empty : TrieWF (.node [] none) :=
  show ([] : List String).Nodup ∧ True from ⟨List.nodup_nil, trivial⟩

/-- The trie built from any key pattern is well formed. -/
theorem TrieWF_buildKeyPatternTree {keyPattern : List (List String)} {slots : List SlotId} :
    TrieWF (buildKeyPatternTree keyPattern slots) := by
  rw [buildKeyPatternTree]
  generalize keyPattern.zip slots = l
  induction l generalizing keyPattern slots with
  | nil => exact TrieWF_empty
  | cons hd tl ih =>
      rw [List.foldl_cons]
      have : ∀ t : TrieNode, TrieWF t → TrieWF (tl.foldl (fun t ps => insertPath t ps.1 ps.2) t) := by
        clear ih
        induction tl with
        | nil => intro t h; exact h
        | cons hd2 tl2 ih2 =>
            intro t h
            rw [List.foldl_cons]
            exact ih2 _ (TrieWF_insertPath h)
      exact this _ (TrieWF_insertPath TrieWF_empty)

theorem lookupChild_of_mem_nodup {cs : List (String × TrieNode)} {nm : String} {c : TrieNode}
    (hmem : (nm, c) ∈ cs) (hnd : (cs.map Prod.fst).Nodup) :
    lookupChild cs nm = some c := by
  induction cs with
  | nil => cases hmem
  | cons hd tl ih =>
      obtain ⟨k, c0⟩ := hd
      rcases List.mem_cons.mp hmem with he | hmem'
      · injection he with he1 he2
        subst he1; subst he2
        simp [lookupChild]
      · have hfst : nm ∈ tl.map Prod.fst := List.mem_map_of_mem Prod.fst hmem'
        have hk : k ≠ nm := by
          intro hh
          rw [List.map_cons] at hnd
          exact (List.nodup_cons.mp hnd).1 (hh ▸ hfst)
        simp only [lookupChild, if_neg hk]
        exact ih hmem' (List.nodup_cons.mp hnd).2

theorem exprSlotsList_args_cons {k : String} {c0 : TrieNode} {tl : List (String × TrieNode)}
    {s : SlotId} :
    s ∈ exprSlotsList (buildNewObjArgs ((k, c0) :: tl)) ↔
      (s ∈ exprSlots (match c0.slotOf with
        | some s0 => EExpr.evar s0
        | none => buildNewObjExpr c0) ∨ s ∈ exprSlotsList (buildNewObjArgs tl)) := by
  rw [show buildNewObjArgs ((k, c0) :: tl)
      = .constStr k ::
          (match c0.slotOf with
           | some s0 => EExpr.evar s0
           | none => buildNewObjExpr c0) :: buildNewObjArgs tl from rfl,
    show ∀ e rest, exprSlotsList (EExpr.constStr k :: e :: rest)
      = exprSlots e ++ exprSlotsList rest from fun e rest => by
        rw [show exprSlotsList (EExpr.constStr k :: e :: rest)
            = exprSlots (EExpr.constStr k) ++ (exprSlots e ++ exprSlotsList rest) from rfl]
        rfl]
  exact List.mem_append

/-- Slot contribution of a looked-up child to the emitted argument list. -/
theorem child_slot_mem_args {cs : List (String × TrieNode)} {a : String} {c : TrieNode}
    (hc : lookupChild cs a = some c) :
    (∀ {s : SlotId}, c.slotOf = some s → s ∈ exprSlotsList (buildNewObjArgs cs)) ∧
      (c.slotOf = none → ∀ {x : SlotId}, x ∈ exprSlots (buildNewObjExpr c) →
        x ∈ exprSlotsList (buildNewObjArgs cs)) := by
  induction cs with
  | nil => cases hc
  | cons hd tl ih =>
      obtain ⟨k, c0⟩ := hd
      by_cases hk : k = a
      · subst hk
        rw [show lookupChild ((k, c0) :: tl) k = some c0 by simp [lookupChild]] at hc
        injection hc with hc
        subst hc
        constructor
        · intro s hs
          rw [exprSlotsList_args_cons]
          exact Or.inl (by rw [hs]; simp [exprSlots])
        · intro hs x hx
          rw [exprSlotsList_args_cons]
          exact Or.inl (by rw [hs]; exact hx)
      · rw [show lookupChild ((k, c0) :: tl) a = lookupChild tl a by
            simp [lookupChild, hk]] at hc
        constructor
        · intro s hs
          rw [exprSlotsList_args_cons]
          exact Or.inr ((ih hc).1 hs)
        · intro hs x hx
          rw [exprSlotsList_args_cons]
          exact Or.inr ((ih hc).2 hs hx)

/-- A slotted node whose path has no slotted strict initial segment
contributes its slot to the emitted expression. -/
theorem mem_exprSlots_of_reach {p : List String} :
    ∀ {t n : TrieNode} {s : SlotId},
      p ≠ [] → findNode t p = some n → n.slotOf = some s →
      (∀ q, q ≠ [] → strictPrefixOf q p → slotAt t q = none) →
      s ∈ exprSlots (buildNewObjExpr t) := by
  induction p with
  | nil => intro t n s hp; exact absurd rfl hp
  | cons a rest ih =>
      intro t n s _ hfind hslot hq
      obtain ⟨cs, sl⟩ := t
      rw [findNode_cons, children_node] at hfind
      cases hc : lookupChild cs a with
      | none => rw [hc] at hfind; cases hfind
      | some c =>
          rw [hc] at hfind
          rw [show buildNewObjExpr (.node cs sl) = .func "newObj" (buildNewObjArgs cs) from rfl,
            show exprSlots (EExpr.func "newObj" (buildNewObjArgs cs))
              = exprSlotsList (buildNewObjArgs cs) from rfl]
          cases rest with
          | nil =>
              have hcn : c = n := by
                injection (show some c = some n from hfind) with hh
              subst hcn
              exact (child_slot_mem_args hc).1 hslot
          | cons r1 r2 =>
              have hfind' : findNode c (r1 :: r2) = some n := hfind
              have hcslot : c.slotOf = none := by
                have := hq [a] (by simp) ⟨⟨r1 :: r2, rfl⟩, by intro hh; cases hh⟩
                rwa [slotAt_cons_some (show lookupChild (TrieNode.node cs sl).children a
                    = some c by rw [children_node, hc]), slotAt_nil_eq] at this
              refine (child_slot_mem_args hc).2 hcslot (ih (by simp) hfind' hslot ?_)
              intro q hqne hqpre
              have hpre' : strictPrefixOf (a :: q) (a :: r1 :: r2) := by
                obtain ⟨⟨r, hr⟩, hne2⟩ := hqpre
                exact ⟨⟨r, by rw [List.cons_append, hr]⟩,
                  by intro hh; injection hh with _ hh2; exact hne2 hh2⟩
              have := hq (a :: q) (by simp) hpre'
              rwa [slotAt_cons_some (show lookupChild (TrieNode.node cs sl).children a
                  = some c by rw [children_node, hc])] at this

mutual
/-- Every slot occurring in the emitted rehydration expression of a
well-formed trie belongs to a slotted node none of whose strict nonempty
initial segments is slotted. -/
theorem exprSlots_reach : ∀ (t : TrieNode), TrieWF t → ∀ {s : SlotId},
    s ∈ exprSlots (buildNewObjExpr t) →
    ∃ r n, r ≠ ([] : List String) ∧ findNode t r = some n ∧ n.slotOf = some s ∧
      ∀ q, q ≠ [] → strictPrefixOf q r → slotAt t q = none
  | .node cs sl => fun hwf {s} hs => by
      rw [show buildNewObjExpr (.node cs sl) = .func "newObj" (buildNewObjArgs cs) from rfl,
        show exprSlots (EExpr.func "newObj" (buildNewObjArgs cs))
          = exprSlotsList (buildNewObjArgs cs) from rfl] at hs
      have hwf' : (cs.map Prod.fst).Nodup ∧ TrieWFL cs := hwf
      obtain ⟨nm, c, hmem, hcase⟩ := exprSlotsList_reach cs hwf'.2 hs
      have hlk : lookupChild cs nm = some c := lookupChild_of_mem_nodup hmem hwf'.1
      rcases hcase with hslot | ⟨hnone, r', n, hr', hfind', hslot', hfree'⟩
      · refine ⟨[nm], c, by simp, ?_, hslot, ?_⟩
        · rw [findNode_cons, children_node, hlk]
          rfl
        · intro q hqne hqpre
          obtain ⟨⟨r0, hr0⟩, hne2⟩ := hqpre
          cases q with
          | nil => exact absurd rfl hqne
          | cons b qr =>
              rw [List.cons_append] at hr0
              injection hr0 with hb hrest
              subst hb
              have : qr = [] ∧ r0 = [] := by
                constructor
                · cases qr with
                  | nil => rfl
                  | cons x xs => simp at hrest
                · cases qr with
                  | nil => exact hrest
                  | cons x xs => simp at hrest
              exact absurd (by rw [this.1] : b :: qr = [b]) hne2
      · refine ⟨nm :: r', n, by simp, ?_, hslot', ?_⟩
        · rw [findNode_cons, children_node, hlk]
          exact hfind'
        · intro q hqne hqpre
          cases q with
          | nil => exact absurd rfl hqne
          | cons b qr =>
              obtain ⟨⟨r0, hr0⟩, hne2⟩ := hqpre
              rw [List.cons_append] at hr0
              injection hr0 with hb hrest
              subst hb
              rw [slotAt_cons_some (show lookupChild (TrieNode.node cs sl).children b
                  = some c by rw [children_node, hlk])]
              cases qr with
              | nil => rw [slotAt_nil_eq]; exact hnone
              | cons x xs =>
                  refine hfree' (x :: xs) (by simp) ⟨⟨r0, hrest⟩, ?_⟩
                  intro hh
                  exact hne2 (by rw [hh])

/-- List version of `exprSlots_reach`: a slot in the emitted argument list
comes from some child, either directly or recursively. -/
theorem exprSlotsList_reach : ∀ (cs : List (String × TrieNode)), TrieWFL cs → ∀ {s : SlotId},
    s ∈ exprSlotsList (buildNewObjArgs cs) →
    ∃ nm c, (nm, c) ∈ cs ∧ (c.slotOf = some s ∨ (c.slotOf = none ∧
      ∃ r n, r ≠ ([] : List String) ∧ findNode c r = some n ∧ n.slotOf = some s ∧
        ∀ q, q ≠ [] → strictPrefixOf q r → slotAt c q = none))
  | [] => fun _ {s} hs => by
      rw [show buildNewObjArgs [] = [] from rfl] at hs
      cases hs
  | (k, c0) :: tl => fun hwfl {s} hs => by
      have hwfl' : TrieWF c0 ∧ TrieWFL tl := hwfl
      rcases exprSlotsList_args_cons.mp hs with hhead | htail
      · cases hc0 : c0.slotOf with
        | some s0 =>
            rw [hc0] at hhead
            rw [show exprSlots (EExpr.evar s0) = [s0] from rfl] at hhead
            have : _ = s0 := List.mem_singleton.mp hhead
            subst this
            exact ⟨k, c0, List.mem_cons_self _ _, Or.inl hc0⟩
        | none =>
            rw [hc0] at hhead
            obtain ⟨r, n, hr, hfind, hslot, hfree⟩ := exprSlots_reach c0 hwfl'.1 hhead
            exact ⟨k, c0, List.mem_cons_self _ _,
              Or.inr ⟨hc0, r, n, hr, hfind, hslot, hfree⟩⟩
      · obtain ⟨nm, c, hmem, hcase⟩ := exprSlotsList_reach tl hwfl'.2 htail
        exact ⟨nm, c, List.mem_cons_of_mem _ hmem, hcase⟩
end

theorem pathLE_trans {q p r : List String} (h1 : pathLE q p) (h2 : pathLE p r) :
    pathLE q r := by
  obtain ⟨r1, rfl⟩ := h1
  obtain ⟨r2, rfl⟩ := h2
  exact ⟨r1 ++ r2, by rw [List.append_assoc]⟩

theorem pathLE_length {q p : List String} (h : pathLE q p) : q.length ≤ p.length := by
  obtain ⟨r, rfl⟩ := h
  simp

theorem strictPrefixOf_length {p q : List String} (h : strictPrefixOf p q) :
    p.length < q.length := by
  obtain ⟨⟨r, rfl⟩, hne⟩ := h
  cases r with
  | nil => exact absurd (by simp) hne
  | cons x xs => simp

/-- C10: For every key pattern in which one path is a strict prefix of
another (in either order of appearance, hence the two unordered membership
hypotheses), the emitted `newObj` expression never mentions the longer
path's slot, and — provided the shorter path is not itself dominated by a
still shorter pattern path — it does mention the prefix path's slot.  Both
`buildKeyPatternTree` and `buildNewObjExpr` are total functions, so the
longer path is dropped silently, with no assertion or error. -/
theorem keyPattern_strict_prefix_shadows (keyPattern : List (List String))
    (slots : List SlotId) (p q : List String) (sp sq : SlotId)
    (hlen : keyPattern.length = slots.length)
    (hndk : keyPattern.Nodup)
    (hnds : slots.Nodup)
    (hne : ∀ r ∈ keyPattern, r ≠ ([] : List String))
    (hp : (p, sp) ∈ keyPattern.zip slots)
    (hq : (q, sq) ∈ keyPattern.zip slots)
    (hpre : strictPrefixOf p q) :
    sq ∉ exprSlots (buildNewObjExpr (buildKeyPatternTree keyPattern slots)) ∧
      ((∀ r ∈ keyPattern, ¬ strictPrefixOf r p) →
        sp ∈ exprSlots (buildNewObjExpr (buildKeyPatternTree keyPattern slots))) := by
  have hfstne : ∀ ps ∈ keyPattern.zip slots, ps.1 ≠ ([] : List String) := by
    intro ps hps
    exact hne ps.1 (List.of_mem_zip hps).1
  constructor
  · intro hmem
    have hwf : TrieWF (buildKeyPatternTree keyPattern slots) := TrieWF_buildKeyPatternTree
    obtain ⟨r, n, hr, hfind, hslot, hfree⟩ := exprSlots_reach _ hwf hmem
    have hslotAt : slotAt (buildKeyPatternTree keyPattern slots) r = some sq := by
      rw [slotAt, hfind]
      exact hslot
    rw [buildKeyPatternTree] at hslotAt
    rcases slotAt_foldl_insert hslotAt with h0 | ⟨ps, hpsmem, hps1, hps2⟩
    · rw [slotAt_empty] at h0
      cases h0
    · -- the reached slot can only be the one bound for `q`
      have hsnd : ((keyPattern.zip slots).map Prod.snd).Nodup := by
        rw [List.map_snd_zip keyPattern slots (le_of_eq hlen.symm)]
        exact hnds
      have hps_eq : ps = (q, sq) :=
        List.inj_on_of_nodup_map hsnd hpsmem hq (by rw [hps2])
      have hrq : r = q := by rw [← hps1, hps_eq]
      -- but then some nonempty initial segment of `p` is slotted and is a
      -- strict initial segment of `q`, contradicting reachability
      obtain ⟨q0, hq0ne, hq0le, hq0slot⟩ :=
        slotted_of_mem_foldl (t := .node [] none) hp (hne p (List.of_mem_zip hp).1) hfstne
      have hq0pre : strictPrefixOf q0 r := by
        rw [hrq]
        refine ⟨pathLE_trans hq0le hpre.1, ?_⟩
        intro hh
        have h1 := pathLE_length hq0le
        have h2 := strictPrefixOf_length hpre
        rw [hh] at h1
        exact absurd (lt_of_le_of_lt h1 h2) (lt_irrefl _)
      exact hq0slot (by
        have := hfree q0 hq0ne hq0pre
        rw [buildKeyPatternTree] at this
        exact this)
  · intro hmin
    obtain ⟨hset, hfree⟩ :=
      slotAt_buildKeyPatternTree keyPattern slots p sp hlen hndk hne hp hmin
    rw [slotAt] at hset
    obtain ⟨n, hn, hns⟩ := Option.bind_eq_some.mp hset
    exact mem_exprSlots_of_reach (hne p (List.of_mem_zip hp).1) hn hns hfree

/-- Witness for `keyPattern_strict_prefix_shadows` at the key pattern with
paths `a` and `a.b`: slot 2 (bound to `a.b`) is dropped, slot 1 (bound to
`a`) is kept. -/
theorem keyPattern_strict_prefix_shadows_witness :
    2 ∉ exprSlots (buildNewObjExpr (buildKeyPatternTree [["a"], ["a", "b"]] [1, 2])) ∧
      1 ∈ exprSlots (buildNewObjExpr (buildKeyPatternTree [["a"], ["a", "b"]] [1, 2])) := by
  obtain ⟨h1, h2⟩ := keyPattern_strict_prefix_shadows [["a"], ["a", "b"]] [1, 2]
    ["a"] ["a", "b"] 1 2 (by decide) (by decide) (by decide) (by decide) (by decide)
    (by decide) (by decide)
  exact ⟨h1, h2 (by decide)⟩

/-! ## Requirements and slot bindings (`PlanStageReqs` / `PlanStageSlots`) -/

/-- The closed set of named slots exchanged between translators
(`PlanStageSlots::kResult` etc.). -/
inductive SlotName where
  | result
  | recordId
  | returnKey
  | oplogTs
deriving DecidableEq, Repr

/-- Fixed enumeration of the named slots, used wherever the C++ code
iterates the name-keyed maps (the iteration order of those maps is an
unobservable implementation detail; one fixed order represents it). -/
def slotNameOrder : List SlotName :=
  [.result, .recordId, .returnKey, .oplogTs]

/-- The downward contract (`PlanStageReqs`): which named slots the parent
wants, an optional index-key bitset, and the two flags steering the
tailable-cursor union rewrite. -/
structure PlanStageReqs where
  resultReq : Bool
  recordIdReq : Bool
  returnKeyReq : Bool
  oplogTsReq : Bool
  indexKeyBitset : Option (List Bool)
  isBuildingUnionForTailableCollScan : Bool
  isTailableCollScanResumeBranch : Bool
deriving DecidableEq, Repr

/-- The empty requirement set. -/
def PlanStageReqs.empty : PlanStageReqs :=
  ⟨false, false, false, false, none, false, false⟩

/-- Mirrors `PlanStageReqs::has`. -/
def PlanStageReqs.has (r : PlanStageReqs) : SlotName → Bool
  | .result => r.resultReq
  | .recordId => r.recordIdReq
  | .returnKey => r.returnKeyReq
  | .oplogTs => r.oplogTsReq

/-- Mirrors `PlanStageReqs::set`. -/
def PlanStageReqs.set (r : PlanStageReqs) : SlotName → PlanStageReqs
  | .result => { r with resultReq := true }
  | .recordId => { r with recordIdReq := true }
  | .returnKey => { r with returnKeyReq := true }
  | .oplogTs => { r with oplogTsReq := true }

/-- Mirrors `PlanStageReqs::clear`. -/
def PlanStageReqs.clear (r : PlanStageReqs) : SlotName → PlanStageReqs
  | .result => { r with resultReq := false }
  | .recordId => { r with recordIdReq := false }
  | .returnKey => { r with returnKeyReq := false }
  | .oplogTs => { r with oplogTsReq := false }

/-- Mirrors `PlanStageReqs::setIf`: sets the name when the condition holds. -/
def PlanStageReqs.setIf (r : PlanStageReqs) (n : SlotName) (b : Bool) : PlanStageReqs :=
  if b then r.set n else r

/-- Mirrors `PlanStageReqs::copy` (value semantics). -/
def PlanStageReqs.copy (r : PlanStageReqs) : PlanStageReqs := r

/-- The upward contract (`PlanStageSlots`): which named slots the subtree
materialized, plus the optional ordered vector of index-key slots. -/
structure PlanStageSlots where
  resultSlot : Option SlotId
  recordIdSlot : Option SlotId
  returnKeySlot : Option SlotId
  oplogTsSlot : Option SlotId
  indexKeySlots : Option (List SlotId)
deriving DecidableEq, Repr

/-- Bindings with no slots at all. -/
def PlanStageSlots.empty : PlanStageSlots :=
  ⟨none, none, none, none, none⟩

/-- Mirrors `PlanStageSlots::getIfExists` / `get`. -/
def PlanStageSlots.get (o : PlanStageSlots) : SlotName → Option SlotId
  | .result => o.resultSlot
  | .recordId => o.recordIdSlot
  | .returnKey => o.returnKeySlot
  | .oplogTs => o.oplogTsSlot

/-- Mirrors `PlanStageSlots::has`. -/
def PlanStageSlots.has (o : PlanStageSlots) (n : SlotName) : Bool :=
  (o.get n).isSome

/-- Mirrors `PlanStageSlots::set`. -/
def PlanStageSlots.set (o : PlanStageSlots) : SlotName → SlotId → PlanStageSlots
  | .result, s => { o with resultSlot := some s }
  | .recordId, s => { o with recordIdSlot := some s }
  | .returnKey, s => { o with returnKeySlot := some s }
  | .oplogTs, s => { o with oplogTsSlot := some s }

/-- Mirrors `PlanStageSlots::clear`. -/
def PlanStageSlots.clearName (o : PlanStageSlots) : SlotName → PlanStageSlots
  | .result => { o with resultSlot := none }
  | .recordId => { o with recordIdSlot := none }
  | .returnKey => { o with returnKeySlot := none }
  | .oplogTs => { o with oplogTsSlot := none }

/-- Mirrors `PlanStageSlots::setIndexKeySlots`. -/
def PlanStageSlots.setIndexKeySlots (o : PlanStageSlots) (v : Option (List SlotId)) :
    PlanStageSlots :=
  { o with indexKeySlots := v }

/-- Mirrors `forEachSlot(reqs, push_back)`: the slots bound for the names
the requirements demand, in the fixed name order.  A demanded name that is
unbound is skipped here; the C++ version would assert, and the translators
under study check the relevant presences themselves. -/
def PlanStageSlots.slotVector (o : PlanStageSlots) (reqs : PlanStageReqs) : List SlotId :=
  slotNameOrder.foldr
    (fun n acc =>
      if reqs.has n then
        match o.get n with
        | some s => s :: acc
        | none => acc
      else acc) []

/-- Mirrors the `PlanStageSlots(reqs, slotIdGenerator)` constructor: a
fresh slot for every required name, in the fixed name order. -/
def PlanStageSlots.fromReqs (reqs : PlanStageReqs) (g : Nat) : PlanStageSlots × Nat :=
  let pick := fun (b : Bool) (g : Nat) =>
    if b then (some g, g + 1) else ((none : Option SlotId), g)
  let (rs, g1) := pick reqs.resultReq g
  let (ri, g2) := pick reqs.recordIdReq g1
  let (rk, g3) := pick reqs.returnKeyReq g2
  let (ot, g4) := pick reqs.oplogTsReq g3
  (⟨rs, ri, rk, ot, none⟩, g4)

/-! ## Builder context and state -/

/-- Sort directions (`sbe::value::SortDirection`). -/
inductive SortDir where
  | asc
  | desc
deriving DecidableEq, Repr

/-- The physical operator tree (`sbe::PlanStage`), restricted to the
constructors this translation unit emits.  The bodies produced by the
external scan generators appear as opaque leaves carrying the data the
builder handed them.  Plan node ids are provenance only and are omitted. -/
inductive PhysStage where
  | coScan
  | limitSkip (limit skip : Option Nat) (child : PhysStage)
  | project (projs : List (SlotId × EExpr)) (child : PhysStage)
  | filter (isConst : Bool) (cond : EExpr) (child : PhysStage)
  | union (branches : List PhysStage) (inputSlots : List (List SlotId))
      (outputSlots : List SlotId)
  | loopJoin (outer inner : PhysStage) (outerProjects correlated : List SlotId)
  | seekScan (resultSlot recordIdSlot seekKeySlot : SlotId)
  | collScanBody (isResumeBranch : Bool) (slots : List SlotId)
  | virtualScanBody (scanSlots : List SlotId)
  | indexScanBody (keyPattern : List String) (bitset : List Bool)
      (keySlots : List SlotId) (recordIdSlot : Option SlotId)
  | makeBsonObj (objSlot : SlotId) (rootSlot : Option SlotId)
      (fieldBehaviorKeep : Option Bool) (fields projectFields : List String)
      (projectSlots : List SlotId) (forceNewObject returnOldObject : Bool)
      (child : PhysStage)
  | sortStage (child : PhysStage) (orderBy : List SlotId) (dirs : List SortDir)
      (values : List SlotId) (limit : Option Nat) (maxMem : Nat) (allowDiskUse : Bool)
  | traverse (outer inner : PhysStage) (inField outField innerOut : SlotId)
      (foldExpr : EExpr)

/-- Error channel: `invariant` failures, `tassert`/`uasserted` with their
numeric tags, and `uassert` with its numeric tag. -/
inductive BErr where
  | invariantViolation
  | tassertFail (code : Nat)
  | uassertFail (code : Nat)
deriving DecidableEq, Repr

/-- Mutable build state: the three id generators and the runtime
environment's registered named slots, in registration order. -/
structure BuildSt where
  slotGen : Nat
  frameGen : Nat
  spoolGen : Nat
  envSlots : List (String × SlotId)
deriving DecidableEq, Repr

/-- Mirrors `RuntimeEnvironment::registerSlot`: allocates a fresh slot id
and records it under the given name. -/
def registerSlot (name : String) (st : BuildSt) : SlotId × BuildSt :=
  (st.slotGen,
   { st with slotGen := st.slotGen + 1, envSlots := st.envSlots ++ [(name, st.slotGen)] })

/-- Mirrors `RuntimeEnvironment::getSlotIfExists`. -/
def getSlotIfExists (st : BuildSt) (name : String) : Option SlotId :=
  (st.envSlots.find? (fun p => p.1 = name)).map (fun p => p.2)

/-- Allocates one fresh slot id (`SlotIdGenerator::generate`). -/
def genSlot (st : BuildSt) : SlotId × BuildSt :=
  (st.slotGen, { st with slotGen := st.slotGen + 1 })

/-- Allocates one fresh frame id (`FrameIdGenerator::generate`). -/
def genFrame (st : BuildSt) : Nat × BuildSt :=
  (st.frameGen, { st with frameGen := st.frameGen + 1 })

/-- Static context of one build: the canonical query's tailable flag and
collator, the expression context's disk-use policy, and the shard-key
pattern the shard-filterer factory would report (each component paired
with its is-hashed flag). -/
structure BuildCtx where
  tailable : Bool
  hasCollator : Bool
  allowDiskUse : Bool
  shardKeyPattern : List (String × Bool)
deriving DecidableEq, Repr

/-- Mirrors `makeRuntimeEnvironment`: registers `timeZoneDB` always and
`collator` exactly when the query has a collator. -/
def makeRuntimeEnvironment (ctx : BuildCtx) (st : BuildSt) : BuildSt :=
  let (_, st1) := registerSlot "timeZoneDB" st
  if ctx.hasCollator then (registerSlot "collator" st1).2 else st1

/-! ## The logical solution tree -/

/-- The logical query-solution nodes (`QuerySolutionNode`) covered by this
embedding: the node kinds the studied properties exercise.  Sort-pattern
parts carry their component path and ascending flag; key patterns carry
their dotted field names. -/
inductive QSN where
  | collScan (shouldTrackLatestOplogTimestamp requestResumeToken tailable : Bool)
  | virtualScan (hasRecordId : Bool) (docs : List Value) (mocksIndexScan : Bool)
      (indexKeyPattern : List String)
  | ixscan (keyPattern : List String) (addKeyMetadata : Bool)
  | fetch (hasFilter : Bool) (child : QSN)
  | limit (n : Nat) (child : QSN)
  | skip (n : Nat) (child : QSN)
  | sort (pattern : List (List String × Bool)) (limitVal : Nat) (maxMem : Nat) (child : QSN)
  | eof
  | shardingFilter (child : QSN)

/-! ## Modelled external generators and helpers -/

/-- Modelled from the spec: `generateCollScan`
(`sbe_stage_builder_coll_scan.h`, out of scope as an interface) produces
the collection-scan body honoring the resume-branch flag, binding the
named slots the requirements demand among result, recordId and oplogTs. -/
def generateCollScan (reqs : PlanStageReqs) (isResumeBranch : Bool) (st : BuildSt) :
    PhysStage × PlanStageSlots × BuildSt :=
  let scanReqs : PlanStageReqs :=
    { PlanStageReqs.empty with
        resultReq := reqs.resultReq
        recordIdReq := reqs.recordIdReq
        oplogTsReq := reqs.oplogTsReq }
  let (outputs, g) := PlanStageSlots.fromReqs scanReqs st.slotGen
  let st' := { st with slotGen := g }
  (.collScanBody isResumeBranch (outputs.slotVector scanReqs), outputs, st')

/-- Modelled from the spec: `generateVirtualScanMulti`
(`sbe_stage_builder_test_fixture` collaborator, out of scope as an
interface) wraps the inline documents in a multi-output scan with the
requested number of fresh output slots. -/
def generateVirtualScanMulti (numSlots : Nat) (st : BuildSt) :
    (List SlotId × PhysStage) × BuildSt :=
  let slots := (List.range numSlots).map (fun i => st.slotGen + i)
  ((slots, .virtualScanBody slots), { st with slotGen := st.slotGen + numSlots })

/-- Modelled from the spec: `generateIndexScan`
(`sbe_stage_builder_index_scan.h`, out of scope as an interface) produces
the index-scan body, one fresh slot per requested key-pattern position (in
position order) and a recordId slot when demanded. -/
def generateIndexScan (keyPattern : List String) (bitset : List Bool)
    (reqs : PlanStageReqs) (st : BuildSt) :
    PhysStage × PlanStageSlots × BuildSt :=
  let count := bitset.countP (fun b => b)
  let keySlots := (List.range count).map (fun i => st.slotGen + i)
  let st1 := { st with slotGen := st.slotGen + count }
  let (rid, st2) :=
    if reqs.has .recordId then
      let (s, st2) := genSlot st1
      ((some s : Option SlotId), st2)
    else (none, st1)
  let outputs :=
    { PlanStageSlots.empty with
        recordIdSlot := rid
        indexKeySlots := some keySlots }
  (.indexScanBody keyPattern bitset keySlots rid, outputs, st2)

/-- Modelled from the spec: `generateFilter`
(`sbe_stage_builder_filter.h`, out of scope as an interface) compiles the
residual match expression and layers a filter stage on the subtree. -/
def generateFilter (stage : PhysStage) : PhysStage :=
  .filter false (.constOpaque "residualFilter") stage

/-- Modelled from the spec: `generateShardKeyBinding`
(`sbe_stage_builder_helpers.h`, out of scope as an interface) produces the
nested getField / array-traversal binding for one shard-key component
path rooted at the document slot. -/
def generateShardKeyBinding (path : String) (resultSlot : SlotId) : EExpr :=
  .func "shardKeyBinding" [.evar resultSlot, .constStr path]

/-- Modelled from the spec: `makeIndexKeyInclusionSet`
(`sbe_stage_builder_helpers.h`, out of scope as an interface) walks the
key pattern and returns the bitset of positions whose field name belongs
to the required set, together with those field names in key order. -/
def makeIndexKeyInclusionSet (keyPattern : List String) (requiredFields : List String) :
    List Bool × List String :=
  (keyPattern.map (fun f => requiredFields.contains f),
   keyPattern.filter (fun f => requiredFields.contains f))

/-- Modelled from the spec: `makeIndexKeyOutputSlotsMatchingParentReqs`
(`sbe_stage_builder_index_scan.h`, out of scope as an interface) narrows a
slot vector aligned with the child bitset down to the positions of the
parent bitset. -/
def makeIndexKeyOutputSlotsMatchingParentReqs :
    List Bool → List Bool → List SlotId → List SlotId
  | [], _, _ => []
  | _, [], _ => []
  | pb :: ps, cb :: cs, slots =>
      if cb then
        match slots with
        | [] => []
        | s :: srest =>
            (if pb then [s] else []) ++ makeIndexKeyOutputSlotsMatchingParentReqs ps cs srest
      else makeIndexKeyOutputSlotsMatchingParentReqs ps cs slots

/-- Mirrors `rehydrateIndexKey`: adds a project stage computing the
rehydrated object from the index-key slots into `resultSlot`.  Splitting
the dotted key-pattern paths into components is `FieldRef`'s job. -/
def rehydrateIndexKey (stage : PhysStage) (indexKeyPattern : List String)
    (indexKeySlots : List SlotId) (resultSlot : SlotId) : PhysStage :=
  .project
    [(resultSlot,
      buildNewObjExpr
        (buildKeyPatternTree (indexKeyPattern.map (fun f => f.splitOn ".")) indexKeySlots))]
    stage

/-- Mirrors `makeLimitCoScanTree`: a co-scan under limit 1. -/
def makeLimitCoScanTree : PhysStage :=
  .limitSkip (some 1) none .coScan

/-- Mirrors `generateEofPlan`: a zero-row plan (co-scan under limit 0)
which still binds every required named slot to a `Nothing` constant. -/
def generateEofPlan (reqs : PlanStageReqs) (st : BuildSt) :
    PhysStage × PlanStageSlots × BuildSt :=
  let (outputs, g) := PlanStageSlots.fromReqs reqs st.slotGen
  let st' := { st with slotGen := g }
  let projects : List (SlotId × EExpr) :=
    (outputs.slotVector reqs).map (fun s => (s, EExpr.constNothing))
  let stage : PhysStage := .limitSkip (some 0) none .coScan
  let stage := if projects.isEmpty then stage else .project projects stage
  (stage, outputs, st')

/-! ## Leaf translators -/

/-- Mirrors `SlotBasedStageBuilder::buildCollScan`. -/
def buildCollScan (reqs : PlanStageReqs) (st : BuildSt) :
    Except BErr (PhysStage × PlanStageSlots × BuildSt) :=
  if reqs.indexKeyBitset.isSome then .error .invariantViolation
  else
    let (stage, outputs, st1) :=
      generateCollScan reqs reqs.isTailableCollScanResumeBranch st
    let (stage, outputs, st2) :=
      if reqs.has .returnKey then
        let (rk, st2) := genSlot st1
        (.project [(rk, .func "newObj" [])] stage, outputs.set .returnKey rk, st2)
      else (stage, outputs, st1)
    if reqs.has .oplogTs && !(outputs.has .oplogTs) then .error .invariantViolation
    else .ok (stage, outputs, st2)

/-- Index-key projections generated by `buildVirtualScan` for a mocked
index scan: one fresh slot and one `getField` projection per requested
key-pattern position, in position order. -/
def vsIndexKeyProjections (pattern : List String) (bits : List Bool)
    (resultSlot : SlotId) (g : Nat) : List SlotId × List (SlotId × EExpr) × Nat :=
  match pattern with
  | [] => ([], [], g)
  | f :: fs =>
      if bits.headD false then
        let (slots, projs, g') := vsIndexKeyProjections fs (bits.drop 1) resultSlot (g + 1)
        (g :: slots,
         (g, makeFunction "getField" [.evar resultSlot, .constStr f]) :: projs, g')
      else vsIndexKeyProjections fs (bits.drop 1) resultSlot g

/-- Common tail of `buildVirtualScan`: the recordId handling. -/
def vsFinish (hasRecordId : Bool) (scanSlots : List SlotId) (stage : PhysStage)
    (outputs : PlanStageSlots) (reqs : PlanStageReqs) (st : BuildSt) :
    Except BErr (PhysStage × PlanStageSlots × BuildSt) :=
  if reqs.has .recordId then
    if !hasRecordId then .error .invariantViolation
    else .ok (stage, outputs.set .recordId (scanSlots.getD 0 0), st)
  else .ok (stage, outputs, st)

/-- Mirrors `SlotBasedStageBuilder::buildVirtualScan`. -/
def buildVirtualScan (hasRecordId : Bool) (mocksIndexScan : Bool)
    (indexKeyPattern : List String) (reqs : PlanStageReqs) (st : BuildSt) :
    Except BErr (PhysStage × PlanStageSlots × BuildSt) :=
  if !mocksIndexScan && reqs.indexKeyBitset.isSome then .error .invariantViolation
  else if reqs.has .oplogTs then .error .invariantViolation
  else
    let ((scanSlots, stage), st1) :=
      generateVirtualScanMulti (if hasRecordId then 2 else 1) st
    let resultSlot := if hasRecordId then scanSlots.getD 1 0 else scanSlots.getD 0 0
    if reqs.has .result then
      vsFinish hasRecordId scanSlots stage (PlanStageSlots.empty.set .result resultSlot)
        reqs st1
    else
      match reqs.indexKeyBitset with
      | some bits =>
          if indexKeyPattern.isEmpty then .error .invariantViolation
          else
            let (indexKeySlots, projections, g) :=
              vsIndexKeyProjections indexKeyPattern bits resultSlot st1.slotGen
            let st2 := { st1 with slotGen := g }
            vsFinish hasRecordId scanSlots (.project projections stage)
              (PlanStageSlots.empty.setIndexKeySlots (some indexKeySlots)) reqs st2
      | none => vsFinish hasRecordId scanSlots stage PlanStageSlots.empty reqs st1

/-- Field-name/slot argument pairs of the raw-key `newObj` emitted for
`returnKey` by `buildIndexScan`. -/
def buildReturnKeyArgs : List (String × SlotId) → List EExpr
  | [] => []
  | (f, s) :: rest => .constStr f :: .evar s :: buildReturnKeyArgs rest

/-- Mirrors `SlotBasedStageBuilder::buildIndexScan`. -/
def buildIndexScan (keyPattern : List String) (addKeyMetadata : Bool)
    (reqs : PlanStageReqs) (st : BuildSt) :
    Except BErr (PhysStage × PlanStageSlots × BuildSt) :=
  if !(reqs.has .returnKey) && addKeyMetadata then .error .invariantViolation
  else if reqs.has .oplogTs then .error .invariantViolation
  else
    let n := keyPattern.length
    let indexKeyBitset : List Bool :=
      if reqs.has .returnKey || reqs.has .result then List.replicate n true
      else
        match reqs.indexKeyBitset with
        | some b => b
        | none => List.replicate n false
    let (stage, outputs, st1) := generateIndexScan keyPattern indexKeyBitset reqs st
    let (stage, outputs, st2) :=
      if reqs.has .returnKey then
        let args := buildReturnKeyArgs (keyPattern.zip (outputs.indexKeySlots.getD []))
        let (rk, st2) := genSlot st1
        (.project [(rk, .func "newObj" args)] stage, outputs.set .returnKey rk, st2)
      else (stage, outputs, st1)
    let (stage, outputs, st3) :=
      if reqs.has .result then
        let (rs, st3) := genSlot st2
        (rehydrateIndexKey stage keyPattern (outputs.indexKeySlots.getD []) rs,
         outputs.set .result rs, st3)
      else (stage, outputs, st2)
    let outputs :=
      match reqs.indexKeyBitset with
      | some pb =>
          outputs.setIndexKeySlots
            (some (makeIndexKeyOutputSlotsMatchingParentReqs pb indexKeyBitset
              (outputs.indexKeySlots.getD [])))
      | none => outputs.setIndexKeySlots none
    .ok (stage, outputs, st3)

/-- Mirrors `SlotBasedStageBuilder::makeLoopJoinForFetch`: a seek-by-
recordId collection scan limited to one row on the inner side of a
loop-join. -/
def makeLoopJoinForFetch (inputStage : PhysStage) (seekKeySlot : SlotId)
    (slotsToForward : List SlotId) (st : BuildSt) :
    SlotId × SlotId × PhysStage × BuildSt :=
  let (resultSlot, st1) := genSlot st
  let (recordIdSlot, st2) := genSlot st1
  let scanStage : PhysStage := .seekScan resultSlot recordIdSlot seekKeySlot
  let stage : PhysStage :=
    .loopJoin inputStage (.limitSkip (some 1) none scanStage) slotsToForward [seekKeySlot]
  (resultSlot, recordIdSlot, stage, st2)

/-- The part of `SlotBasedStageBuilder::buildFetch` that follows the
recursive call on the child. -/
def buildFetchRest (hasFilter : Bool) (reqs : PlanStageReqs) (stage : PhysStage)
    (outputs : PlanStageSlots) (st : BuildSt) :
    Except BErr (PhysStage × PlanStageSlots × BuildSt) :=
  match outputs.get .recordId with
  | none => .error (.uassertFail 4822880)
  | some rid =>
      if reqs.has .returnKey && !(outputs.has .returnKey) then .error (.uassertFail 4953600)
      else
        let forwardingReqs := (reqs.copy.clear .result).clear .recordId
        let relevantSlots :=
          outputs.slotVector forwardingReqs ++ outputs.indexKeySlots.getD []
        let (fetchResultSlot, fetchRecordIdSlot, stage, st1) :=
          makeLoopJoinForFetch stage rid relevantSlots st
        let outputs := (outputs.set .result fetchResultSlot).set .recordId fetchRecordIdSlot
        let stage := if hasFilter then generateFilter stage else stage
        .ok (stage, outputs, st1)

/-! ## Sort-key construction -/

/-- Mirrors `generateSortKeyTraversal`, with the path suffix from the
current level downward in place of the `(fp, level)` pair and the collator
slot in place of the `makeSortKey` closure.  `isTopLevel` distinguishes
level 0, where the top-level field value is already in `inputSlot` and no
`getField` is generated. -/
def generateSortKeyTraversalAux (inputStage : PhysStage) (inputSlot : SlotId)
    (suffix : List String) (dir : SortDir) (isTopLevel : Bool)
    (collatorSlot : Option SlotId) (st : BuildSt) : SlotId × PhysStage × BuildSt :=
  match suffix with
  | [] => (inputSlot, inputStage, st)
  | f :: rest =>
      let isLeafField := rest.isEmpty
      let (fieldSlot, fromBranch, st1) :=
        if !isTopLevel then
          let getFieldExpr := makeFunction "getField" [.evar inputSlot, .constStr f]
          let getFieldExpr :=
            if isLeafField then makeFillEmptyNull getFieldExpr else getFieldExpr
          let (fs, st1) := genSlot st
          (fs, PhysStage.project [(fs, getFieldExpr)] inputStage, st1)
        else (inputSlot, inputStage, st)
      let (innerSlot, innerBranch, st2) :=
        if isLeafField then
          let (isl, st2) := genSlot st1
          let sortKeyExpr :=
            match collatorSlot with
            | none => makeVariable fieldSlot
            | some cs =>
                makeFunction "collComparisonKey" [makeVariable fieldSlot, makeVariable cs]
          (isl, PhysStage.project [(isl, sortKeyExpr)] makeLimitCoScanTree, st2)
        else
          generateSortKeyTraversalAux makeLimitCoScanTree fieldSlot rest dir false
            collatorSlot st1
      let (traverseSlot, st3) := genSlot st2
      let (outputSlot, st4) := genSlot st3
      let op : BinOp := if dir = .asc then .less else .greater
      let foldExpr := EExpr.eif
        (makeBinaryOp op
          (makeBinaryOp .cmp3w (makeVariable innerSlot) (makeVariable traverseSlot))
          (.constInt64 0))
        (makeVariable innerSlot) (makeVariable traverseSlot)
      let outputStage :=
        PhysStage.traverse fromBranch innerBranch fieldSlot traverseSlot innerSlot foldExpr
      (outputSlot,
       PhysStage.project
         [(outputSlot,
           if isLeafField then makeFillEmptyUndefined (makeVariable traverseSlot)
           else makeFillEmptyNull (makeVariable traverseSlot))] outputStage,
       st4)

/-- Mirrors the `generateSortKeyTraversal(..., 0, ...)` entry call. -/
def generateSortKeyTraversal (inputStage : PhysStage) (inputSlot : SlotId)
    (fp : List String) (dir : SortDir) (collatorSlot : Option SlotId) (st : BuildSt) :
    SlotId × PhysStage × BuildSt :=
  generateSortKeyTraversalAux inputStage inputSlot fp dir true collatorSlot st

/-- Mirrors `generateArrayCheckForSortHelper`, with the path suffix from
the current level downward and an explicit frame-id generator. -/
def generateArrayCheckForSortHelper (inputExpr : EExpr) (suffix : List String) (g : Nat) :
    EExpr × Nat :=
  match suffix with
  | [] => (.constBool false, g)
  | [f] =>
      (makeFunction "isArray"
        [makeFillEmptyNull (makeFunction "getField" [inputExpr, .constStr f])], g)
  | f :: f2 :: rest =>
      let fieldExpr := makeFillEmptyNull (makeFunction "getField" [inputExpr, .constStr f])
      let frameId := g
      let (inner, g') :=
        generateArrayCheckForSortHelper (.localVar frameId 0) (f2 :: rest) (g + 1)
      (.localBind frameId [fieldExpr]
        (makeBinaryOp .logicOr (makeFunction "isArray" [.localVar frameId 0]) inner), g')

/-- Mirrors `generateArrayCheckForSort`: true when evaluating the field
path from the slot holding its top-level value involves array traversal at
any level. -/
def generateArrayCheckForSort (inputSlot : SlotId) (fp : List String) (g : Nat) :
    EExpr × Nat :=
  match fp with
  | [] => (makeFunction "isArray" [makeVariable inputSlot], g)
  | [_] => (makeFunction "isArray" [makeVariable inputSlot], g)
  | _ :: f2 :: rest =>
      let (inner, g') :=
        generateArrayCheckForSortHelper (makeVariable inputSlot) (f2 :: rest) g
      (makeBinaryOp .logicOr (makeFunction "isArray" [makeVariable inputSlot]) inner, g')

/-- The `BadValue` error code. -/
def badValueCode : Nat := 2

/-- The add-chain of boolean array-ness values for three or more sort
parts (the `numArraysExpr` loop). -/
def parallelArraysNum (parts : List (SlotId × List String)) (acc : EExpr) (g : Nat) :
    EExpr × Nat :=
  match parts with
  | [] => (acc, g)
  | (s, fp) :: rest =>
      let (chk, g1) := generateArrayCheckForSort s fp g
      parallelArraysNum rest
        (makeBinaryOp .add acc (makeBinaryOp .cmp3w chk (.constBool false))) g1

/-- Mirrors the `failOnParallelArrays` lambda of `buildSort`: no check for
a single part; a two-disjunct short form for exactly two parts; the
sum-compare form for three or more. -/
def failOnParallelArrays (parts : List (SlotId × List String)) (g : Nat) :
    Option EExpr × Nat :=
  match parts with
  | [] => (none, g)
  | [_] => (none, g)
  | [a, b] =>
      let (chk0, g1) := generateArrayCheckForSort a.1 a.2 g
      let (chk1, g2) := generateArrayCheckForSort b.1 b.2 g1
      (some (makeBinaryOp .logicOr (makeNot chk0)
        (makeBinaryOp .logicOr (makeNot chk1)
          (.efail badValueCode "cannot sort with keys that are parallel arrays"))), g2)
  | a :: rest =>
      let (chk0, g1) := generateArrayCheckForSort a.1 a.2 g
      let (num, g2) :=
        parallelArraysNum rest (makeBinaryOp .cmp3w chk0 (.constBool false)) g1
      (some (makeBinaryOp .logicOr
        (makeBinaryOp .lessEq num (.constInt32 1))
        (.efail badValueCode "cannot sort with keys that are parallel arrays")), g2)

/-- The `prefixSet` fold of `buildSort`: the accumulated set of top-level
field names and the common-prefix flag (insertions stop once the flag is
set, exactly as in the source). -/
def commonPrefixFold (parts : List (List String × Bool)) : List String × Bool :=
  parts.foldl
    (fun acc part =>
      if acc.2 then acc
      else if acc.1.contains part.1.headI then (acc.1, true)
      else (part.1.headI :: acc.1, false))
    ([], false)

/-- The `hasPartsWithCommonPrefix` flag computed by `buildSort`. -/
def hasPartsWithCommonPrefix (parts : List (List String × Bool)) : Bool :=
  (commonPrefixFold parts).2

/-- Top-level `getField` projections of the fast sort regime: one fresh
slot per part reading its top-level field from the result, missing fields
becoming null. -/
def sortFieldProjections (parts : List (List String × Bool)) (resultSlot : SlotId) (g : Nat) :
    List SlotId × List (SlotId × EExpr) × Nat :=
  match parts with
  | [] => ([], [], g)
  | (path, _) :: rest =>
      let expr := makeFillEmptyNull
        (makeFunction "getField" [makeVariable resultSlot, .constStr path.headI])
      let (slots, projs, g') := sortFieldProjections rest resultSlot (g + 1)
      (g :: slots, (g, expr) :: projs, g')

/-- The per-part traversal loop of the fast sort regime, threading the
input stage and replacing each field slot by its sort-key slot. -/
def sortKeyTraversals (parts : List (SlotId × (List String × Bool)))
    (collatorSlot : Option SlotId) (stage : PhysStage) (st : BuildSt) :
    List SlotId × PhysStage × BuildSt :=
  match parts with
  | [] => ([], stage, st)
  | (slot, (path, asc)) :: rest =>
      let (sortKeySlot, stage1, st1) :=
        generateSortKeyTraversal stage slot path (if asc then .asc else .desc)
          collatorSlot st
      let (slots, stage2, st2) := sortKeyTraversals rest collatorSlot stage1 st1
      (sortKeySlot :: slots, stage2, st2)

/-- The part of `SlotBasedStageBuilder::buildSort` that follows the
recursive call on the child. -/
def buildSortRest (ctx : BuildCtx) (pattern : List (List String × Bool))
    (limitVal maxMem : Nat) (childReqs : PlanStageReqs) (inputStage : PhysStage)
    (outputs : PlanStageSlots) (st : BuildSt) :
    Except BErr (PhysStage × PlanStageSlots × BuildSt) :=
  match outputs.get .result with
  | none => .error .invariantViolation
  | some resultSlot =>
      let collatorSlot := getSlotIfExists st "collator"
      let direction := pattern.map (fun p => if p.2 then SortDir.asc else SortDir.desc)
      let sortLimit : Option Nat := if limitVal ≠ 0 then some limitVal else none
      if !(hasPartsWithCommonPrefix pattern) then
        let (fieldSlots, projectMap, g) := sortFieldProjections pattern resultSlot st.slotGen
        let st1 := { st with slotGen := g }
        let inputStage := PhysStage.project projectMap inputStage
        let (guard, fg) :=
          failOnParallelArrays (fieldSlots.zip (pattern.map Prod.fst)) st1.frameGen
        let st2 := { st1 with frameGen := fg }
        let (inputStage, st3) :=
          match guard with
          | some e =>
              let (gs, st3) := genSlot st2
              (PhysStage.project [(gs, e)] inputStage, st3)
          | none => (inputStage, st2)
        let (orderBy, inputStage, st4) :=
          sortKeyTraversals (fieldSlots.zip pattern) collatorSlot inputStage st3
        .ok (.sortStage inputStage orderBy direction (outputs.slotVector childReqs)
              sortLimit maxMem ctx.allowDiskUse,
             outputs, st4)
      else
        let (sk, st1) := genSlot st
        let inputStage := PhysStage.project
          [(sk, makeFunction "generateSortKey"
            [.constOpaque "sortSpec", makeVariable resultSlot])] inputStage
        .ok (.sortStage inputStage [sk] [SortDir.asc] (outputs.slotVector childReqs)
              sortLimit maxMem ctx.allowDiskUse,
             outputs, st1)

/-! ## Shard filter -/

/-- Mirrors `buildShardFilterGivenShardKeySlot`: a filter applying
`shardFilter(filterer, shardKey)` on top of the subtree computing the
shard key. -/
def buildShardFilterGivenShardKeySlot (shardKeySlot : SlotId) (childStage : PhysStage) :
    PhysStage :=
  .filter false
    (makeFunction "shardFilter" [.constOpaque "shardFilterer", .evar shardKeySlot])
    childStage

/-- Bitwise union of two index-key bitsets (`operator|` on
`IndexKeysInclusionSet`; a missing tail behaves as zeros). -/
def orBits : List Bool → List Bool → List Bool
  | [], bs => bs
  | as, [] => as
  | a :: as, b :: bs => (a || b) :: orBits as bs

/-- The part of `SlotBasedStageBuilder::buildShardFilterCovered` that
follows the recursive call on the child. -/
def buildShardFilterCoveredRest (parentIndexKeyReqs : Option (List Bool))
    (unionBits : List Bool) (projectFields : List String) (stage : PhysStage)
    (outputs : PlanStageSlots) (st : BuildSt) :
    Except BErr (PhysStage × PlanStageSlots × BuildSt) :=
  match outputs.indexKeySlots with
  | none => .error .invariantViolation
  | some indexKeySlots =>
      let (shardKeySlot, st1) := genSlot st
      let mkObjStage := PhysStage.makeBsonObj shardKeySlot none none [] projectFields
        indexKeySlots true false stage
      let filterStage := buildShardFilterGivenShardKeySlot shardKeySlot mkObjStage
      let outputs := outputs.setIndexKeySlots
        (match parentIndexKeyReqs with
         | none => none
         | some pb =>
             some (makeIndexKeyOutputSlotsMatchingParentReqs pb unionBits indexKeySlots))
      .ok (filterStage, outputs, st1)

/-- Per-component shard-key bindings of the fallback (non-covered) path:
fresh slot, dotted field name, and hashed components mapped through
`shardHash`. -/
def shardKeyProjections (pattern : List (String × Bool)) (resultSlot : SlotId) (g : Nat) :
    List SlotId × List (SlotId × EExpr) × List String × Nat :=
  match pattern with
  | [] => ([], [], [], g)
  | (name, hashed) :: rest =>
      let binding := generateShardKeyBinding name resultSlot
      let binding := if hashed then makeFunction "shardHash" [binding] else binding
      let (slots, projs, names, g') := shardKeyProjections rest resultSlot (g + 1)
      (g :: slots, (g, binding) :: projs, name :: names, g')

/-- The left fold of disjoined not-exists checks over the shard-key
component slots. -/
def arrayChecksFold : List SlotId → EExpr → EExpr
  | [], acc => acc
  | s :: rest, acc =>
      arrayChecksFold rest
        (makeBinaryOp .logicOr acc (makeNot (makeFunction "exists" [.evar s])))

/-- The part of `SlotBasedStageBuilder::buildShardFilter` on the
non-covered path that follows the recursive call on the child. -/
def buildShardFilterRest (ctx : BuildCtx) (stage : PhysStage) (outputs : PlanStageSlots)
    (st : BuildSt) : Except BErr (PhysStage × PlanStageSlots × BuildSt) :=
  match outputs.get .result with
  | none => .error .invariantViolation
  | some resultSlot =>
      let (fieldSlots, projections, projectFields, g) :=
        shardKeyProjections ctx.shardKeyPattern resultSlot st.slotGen
      let st1 := { st with slotGen := g }
      let (shardKeySlot, st2) := genSlot st1
      let shardKeyObjStage := PhysStage.makeBsonObj shardKeySlot none none [] projectFields
        fieldSlots true false (.project projections stage)
      match fieldSlots with
      | [] => .error .invariantViolation
      | fs0 :: fsRest =>
          let arrayChecks :=
            arrayChecksFold fsRest (makeNot (makeFunction "exists" [.evar fs0]))
          let arrayChecks := EExpr.eif arrayChecks .constNothing (.evar shardKeySlot)
          let (finalShardKeySlot, st3) := genSlot st2
          let finalStage := PhysStage.project [(finalShardKeySlot, arrayChecks)] shardKeyObjStage
          .ok (buildShardFilterGivenShardKeySlot finalShardKeySlot finalStage, outputs, st3)

/-- The index key pattern the shard-filter translator extracts from its
child: the key pattern of an index scan or a virtual scan, empty
otherwise. -/
def shardChildIndexKeyPattern : QSN → List String
  | .ixscan kp _ => kp
  | .virtualScan _ _ _ kp => kp
  | _ => []

/-! ## The recursive lowering pass -/

/-- The dispatcher restricted to the case in which the tailable-union
rewrite is already in progress (`isBuildingUnionForTailableCollScan` set):
the per-kind translators, recursing through this same function, with no
further rewrite.  Once the rewrite fires the flag propagates unchanged to
every descendant, so this is exactly what `build` does beneath the union
in the source. -/
def buildFlagged (ctx : BuildCtx) : QSN → PlanStageReqs → BuildSt →
    Except BErr (PhysStage × PlanStageSlots × BuildSt)
  | .collScan _ _ _, reqs, st => buildCollScan reqs st
  | .virtualScan hasRid _ mock kp, reqs, st => buildVirtualScan hasRid mock kp reqs st
  | .ixscan kp md, reqs, st => buildIndexScan kp md reqs st
  | .eof, reqs, st => .ok (generateEofPlan reqs st)
  | .fetch hasF child, reqs, st =>
      if reqs.has .oplogTs then .error .invariantViolation
      else
        match buildFlagged ctx child ((reqs.copy.clear .result).set .recordId) st with
        | .error e => .error e
        | .ok (stage, outputs, st1) => buildFetchRest hasF reqs stage outputs st1
  | .limit n child, reqs, st =>
      match child with
      | .skip m grandchild =>
          match buildFlagged ctx grandchild reqs st with
          | .error e => .error e
          | .ok (stage, outputs, st1) =>
              .ok (if !reqs.isTailableCollScanResumeBranch then
                     .limitSkip (some n) (some m) stage
                   else stage, outputs, st1)
      | child =>
          match buildFlagged ctx child reqs st with
          | .error e => .error e
          | .ok (stage, outputs, st1) =>
              .ok (if !reqs.isTailableCollScanResumeBranch then
                     .limitSkip (some n) none stage
                   else stage, outputs, st1)
  | .skip m child, reqs, st =>
      match buildFlagged ctx child reqs st with
      | .error e => .error e
      | .ok (stage, outputs, st1) =>
          .ok (if !reqs.isTailableCollScanResumeBranch then
                 .limitSkip none (some m) stage
               else stage, outputs, st1)
  | .sort pattern lim mm child, reqs, st =>
      if reqs.indexKeyBitset.isSome then .error .invariantViolation
      else if pattern.isEmpty then .error (.tassertFail 5037001)
      else
        match buildFlagged ctx child (reqs.copy.set .result) st with
        | .error e => .error e
        | .ok (stage, outputs, st1) =>
            buildSortRest ctx pattern lim mm (reqs.copy.set .result) stage outputs st1
  | .shardingFilter child, reqs, st =>
      let indexKeyPattern := shardChildIndexKeyPattern child
      let childReqs := reqs.copy.setIf .result indexKeyPattern.isEmpty
      if !(childReqs.has .result) then
        let parentIndexKeyReqs := childReqs.indexKeyBitset
        let (shardKeyIndexReqs, projectFields) :=
          makeIndexKeyInclusionSet indexKeyPattern (ctx.shardKeyPattern.map Prod.fst)
        let unionBits := orBits (parentIndexKeyReqs.getD []) shardKeyIndexReqs
        match buildFlagged ctx child { childReqs with indexKeyBitset := some unionBits } st with
        | .error e => .error e
        | .ok (stage, outputs, st1) =>
            buildShardFilterCoveredRest parentIndexKeyReqs unionBits projectFields
              stage outputs st1
      else
        match buildFlagged ctx child childReqs st with
        | .error e => .error e
        | .ok (stage, outputs, st1) => buildShardFilterRest ctx stage outputs st1

/-- The node kinds at which the dispatcher diverts to the tailable-union
rewrite. -/
def isTailableRewriteTarget : QSN → Bool
  | .collScan _ _ _ => true
  | .limit _ _ => true
  | .skip _ _ => true
  | _ => false

/-- The dispatcher `SlotBasedStageBuilder::build(root, reqs)`.  If the
query is tailable, the node is a collscan/limit/skip and no union is being
built yet, it diverts to the union construction
(`makeUnionForTailableCollScan`, inlined here: the flagged requirement set
is handed to `buildFlagged` for the two branches); otherwise it runs the
translator for the node kind, recursing through itself. -/
def build (ctx : BuildCtx) (root : QSN) (reqs : PlanStageReqs) (st : BuildSt) :
    Except BErr (PhysStage × PlanStageSlots × BuildSt) :=
    if isTailableRewriteTarget root && ctx.tailable
        && !reqs.isBuildingUnionForTailableCollScan then
      let childReqs := { reqs with isBuildingUnionForTailableCollScan := true }
      if childReqs.indexKeyBitset.isSome then .error .invariantViolation
      else
        let resumeRecordIdSlot := (registerSlot "resumeRecordId" st).1
        let st1 := (registerSlot "resumeRecordId" st).2
        match buildFlagged ctx root
            { childReqs with isTailableCollScanResumeBranch := false } st1 with
        | .error e => .error e
        | .ok (anchorBranch, anchorOut, st2) =>
          let anchorBranchSlots := anchorOut.slotVector childReqs
          let anchorBranch := PhysStage.filter true
            (makeNot (makeFunction "exists" [.evar resumeRecordIdSlot])) anchorBranch
          match buildFlagged ctx root
              { childReqs with isTailableCollScanResumeBranch := true } st2 with
          | .error e => .error e
          | .ok (resumeBranch, resumeOut, st3) =>
            let resumeBranchSlots := resumeOut.slotVector childReqs
            let resumeBranch := PhysStage.filter true
              (makeFunction "exists" [.evar resumeRecordIdSlot])
              (.limitSkip none (some 1) resumeBranch)
            if anchorBranchSlots.length ≠ resumeBranchSlots.length then
              .error .invariantViolation
            else
              let outputs := (PlanStageSlots.fromReqs childReqs st3.slotGen).1
              let st4 := { st3 with slotGen := (PlanStageSlots.fromReqs childReqs st3.slotGen).2 }
              .ok (.union [anchorBranch, resumeBranch]
                    [anchorBranchSlots, resumeBranchSlots]
                    (outputs.slotVector childReqs),
                   outputs, st4)
    else
      match root, reqs, st with
      | .collScan _ _ _, reqs, st => buildCollScan reqs st
      | .virtualScan hasRid _ mock kp, reqs, st => buildVirtualScan hasRid mock kp reqs st
      | .ixscan kp md, reqs, st => buildIndexScan kp md reqs st
      | .eof, reqs, st => .ok (generateEofPlan reqs st)
      | .fetch hasF child, reqs, st =>
          if reqs.has .oplogTs then .error .invariantViolation
          else
            match build ctx child ((reqs.copy.clear .result).set .recordId) st with
            | .error e => .error e
            | .ok (stage, outputs, st1) => buildFetchRest hasF reqs stage outputs st1
      | .limit n child, reqs, st =>
          match child with
          | .skip m grandchild =>
              match build ctx grandchild reqs st with
              | .error e => .error e
              | .ok (stage, outputs, st1) =>
                  .ok (if !reqs.isTailableCollScanResumeBranch then
                         .limitSkip (some n) (some m) stage
                       else stage, outputs, st1)
          | child =>
              match build ctx child reqs st with
              | .error e => .error e
              | .ok (stage, outputs, st1) =>
                  .ok (if !reqs.isTailableCollScanResumeBranch then
                         .limitSkip (some n) none stage
                       else stage, outputs, st1)
      | .skip m child, reqs, st =>
          match build ctx child reqs st with
          | .error e => .error e
          | .ok (stage, outputs, st1) =>
              .ok (if !reqs.isTailableCollScanResumeBranch then
                     .limitSkip none (some m) stage
                   else stage, outputs, st1)
      | .sort pattern lim mm child, reqs, st =>
          if reqs.indexKeyBitset.isSome then .error .invariantViolation
          else if pattern.isEmpty then .error (.tassertFail 5037001)
          else
            match build ctx child (reqs.copy.set .result) st with
            | .error e => .error e
            | .ok (stage, outputs, st1) =>
                buildSortRest ctx pattern lim mm (reqs.copy.set .result) stage outputs st1
      | .shardingFilter child, reqs, st =>
          let indexKeyPattern := shardChildIndexKeyPattern child
          let childReqs := reqs.copy.setIf .result indexKeyPattern.isEmpty
          if !(childReqs.has .result) then
            let parentIndexKeyReqs := childReqs.indexKeyBitset
            let (shardKeyIndexReqs, projectFields) :=
              makeIndexKeyInclusionSet indexKeyPattern (ctx.shardKeyPattern.map Prod.fst)
            let unionBits := orBits (parentIndexKeyReqs.getD []) shardKeyIndexReqs
            match build ctx child { childReqs with indexKeyBitset := some unionBits } st with
            | .error e => .error e
            | .ok (stage, outputs, st1) =>
                buildShardFilterCoveredRest parentIndexKeyReqs unionBits projectFields
                  stage outputs st1
          else
            match build ctx child childReqs st with
            | .error e => .error e
            | .ok (stage, outputs, st1) => buildShardFilterRest ctx stage outputs st1

/-! ## The top-level entry point -/

/-- Pre-order search for the first collection-scan node, returning its
three flags (`getNodeByType(root, STAGE_COLLSCAN)` in the constructor). -/
def findNodeCollScan : QSN → Option (Bool × Bool × Bool)
  | .collScan a b c => some (a, b, c)
  | .fetch _ child => findNodeCollScan child
  | .limit _ child => findNodeCollScan child
  | .skip _ child => findNodeCollScan child
  | .sort _ _ _ child => findNodeCollScan child
  | .shardingFilter child => findNodeCollScan child
  | _ => none

/-- Pre-order search for the first virtual-scan node, returning its
`hasRecordId` flag. -/
def findNodeVirtualScan : QSN → Option Bool
  | .virtualScan h _ _ _ => some h
  | .fetch _ child => findNodeVirtualScan child
  | .limit _ child => findNodeVirtualScan child
  | .skip _ child => findNodeVirtualScan child
  | .sort _ _ _ child => findNodeVirtualScan child
  | .shardingFilter child => findNodeVirtualScan child
  | _ => none

/-- Node count of a solution tree, the measure for the strong induction
over `build` (whose limit-over-skip arm recurses on the grandchild). -/
def QSN.size : QSN → Nat
  | .fetch _ c => c.size + 1
  | .limit _ c => c.size + 1
  | .skip _ c => c.size + 1
  | .sort _ _ _ c => c.size + 1
  | .shardingFilter c => c.size + 1
  | _ => 1

/-- Whether the tree is free of virtual-scan nodes, i.e. consists only of
production plan nodes (virtual scans are the test mocks, and they bind no
`returnKey` slot even when one is demanded). -/
def noVirtualScan : QSN → Bool
  | .virtualScan _ _ _ _ => false
  | .fetch _ c => noVirtualScan c
  | .limit _ c => noVirtualScan c
  | .skip _ c => noVirtualScan c
  | .sort _ _ _ c => noVirtualScan c
  | .shardingFilter c => noVirtualScan c
  | _ => true

/-- The builder object: the single-use flag, the flags the constructor
precomputes by scanning the solution tree, and the build state. -/
structure SlotBasedStageBuilder where
  buildHasStarted : Bool
  shouldProduceRecordIdSlot : Bool
  shouldTrackLatestOplogTimestamp : Bool
  shouldTrackResumeToken : Bool
  shouldUseTailableScan : Bool
  st : BuildSt
deriving DecidableEq, Repr

/-- Mirrors the `SlotBasedStageBuilder` constructor: installs the runtime
environment and precomputes the flags from the first collection-scan or
virtual-scan node.  The default `true` of `shouldProduceRecordIdSlot`,
declared in the class header rather than in this translation unit, is
modelled from the spec ("conditionally produce a `recordIdSlot` based on
the `shouldProduceRecordIdSlot`", overridden only by a virtual scan). -/
def SlotBasedStageBuilder.make (ctx : BuildCtx) (root : QSN) : SlotBasedStageBuilder :=
  let st0 : BuildSt := ⟨1, 1, 1, []⟩
  let st := makeRuntimeEnvironment ctx st0
  let collFlags := findNodeCollScan root
  { buildHasStarted := false
    shouldProduceRecordIdSlot := (findNodeVirtualScan root).getD true
    shouldTrackLatestOplogTimestamp := (collFlags.map (fun f => f.1)).getD false
    shouldTrackResumeToken := (collFlags.map (fun f => f.2.1)).getD false
    shouldUseTailableScan := (collFlags.map (fun f => f.2.2)).getD false
    st := st }

/-- The `PlanStageData` returned beside the physical root. -/
structure PlanStageData where
  outputs : PlanStageSlots
  shouldTrackLatestOplogTimestamp : Bool
  shouldTrackResumeToken : Bool
  shouldUseTailableScan : Bool
deriving DecidableEq, Repr

/-- The single-argument `SlotBasedStageBuilder::build` entry point: asserts
single use, fixes the top-level requirement set, runs the recursive pass,
and asserts the output postconditions.  The builder (with its
`_buildHasStarted` flag) is threaded through explicitly so that the flag
survives failures, exactly as the C++ member does when an exception
unwinds past it. -/
def SlotBasedStageBuilder.runBuild (ctx : BuildCtx) (root : QSN)
    (b : SlotBasedStageBuilder) :
    Except BErr (PhysStage × PlanStageData) × SlotBasedStageBuilder :=
  if b.buildHasStarted then (.error .invariantViolation, b)
  else
    let b1 := { b with buildHasStarted := true }
    let reqs :=
      ((PlanStageReqs.empty.set .result).setIf .recordId b1.shouldProduceRecordIdSlot).setIf
        .oplogTs b1.shouldTrackLatestOplogTimestamp
    match build ctx root reqs b1.st with
    | .error e => (.error e, b1)
    | .ok (stage, outputs, st') =>
        let b2 := { b1 with st := st' }
        if !(outputs.has .result) then (.error .invariantViolation, b2)
        else if b2.shouldProduceRecordIdSlot && !(outputs.has .recordId) then
          (.error .invariantViolation, b2)
        else if b2.shouldTrackLatestOplogTimestamp && !(outputs.has .oplogTs) then
          (.error .invariantViolation, b2)
        else
          (.ok (stage,
            ⟨outputs, b2.shouldTrackLatestOplogTimestamp, b2.shouldTrackResumeToken,
              b2.shouldUseTailableScan⟩), b2)

/-! ## Helper observers on build results -/

/-- The stage of a successful translator result. -/
def okStage (r : Except BErr (PhysStage × PlanStageSlots × BuildSt)) : Option PhysStage :=
  match r with
  | .ok (stage, _, _) => some stage
  | .error _ => none

/-- The slot bindings of a successful translator result. -/
def okOutputs (r : Except BErr (PhysStage × PlanStageSlots × BuildSt)) :
    Option PlanStageSlots :=
  match r with
  | .ok (_, outputs, _) => some outputs
  | .error _ => none

/-- The index-scan body beneath the project wrappers the index-scan
translator may add: the key pattern, the inclusion bitset handed to the
body generator, the key slots and the recordId slot. -/
def findIndexScanBody : PhysStage →
    Option (List String × List Bool × List SlotId × Option SlotId)
  | .indexScanBody kp bs ks rid => some (kp, bs, ks, rid)
  | .project _ c => findIndexScanBody c
  | _ => none

mutual
/-- Whether the expression contains an `EFail` with the given code. -/
def exprHasFail : Nat → EExpr → Bool
  | c, .func _ args => exprHasFailList c args
  | c, .binop _ l r => exprHasFail c l || exprHasFail c r
  | c, .unop _ a => exprHasFail c a
  | c, .eif a b d => exprHasFail c a || exprHasFail c b || exprHasFail c d
  | c, .efail code _ => code == c
  | c, .localBind _ binds body => exprHasFailList c binds || exprHasFail c body
  | _, _ => false

/-- List version of `exprHasFail`. -/
def exprHasFailList : Nat → List EExpr → Bool
  | _, [] => false
  | c, e :: es => exprHasFail c e || exprHasFailList c es
end

mutual
/-- Whether any expression in the plan contains an `EFail` with the given
code. -/
def stageHasFail : Nat → PhysStage → Bool
  | _, .coScan => false
  | c, .limitSkip _ _ ch => stageHasFail c ch
  | c, .project projs ch => projsHasFail c projs || stageHasFail c ch
  | c, .filter _ cond ch => exprHasFail c cond || stageHasFail c ch
  | c, .union brs _ _ => stageHasFailList c brs
  | c, .loopJoin a b _ _ => stageHasFail c a || stageHasFail c b
  | _, .seekScan _ _ _ => false
  | _, .collScanBody _ _ => false
  | _, .virtualScanBody _ => false
  | _, .indexScanBody _ _ _ _ => false
  | c, .makeBsonObj _ _ _ _ _ _ _ _ ch => stageHasFail c ch
  | c, .sortStage ch _ _ _ _ _ _ => stageHasFail c ch
  | c, .traverse a b _ _ _ e => stageHasFail c a || stageHasFail c b || exprHasFail c e

/-- Projection-list version of `stageHasFail`. -/
def projsHasFail : Nat → List (SlotId × EExpr) → Bool
  | _, [] => false
  | c, (_, e) :: rest => exprHasFail c e || projsHasFail c rest

/-- Branch-list version of `stageHasFail`. -/
def stageHasFailList : Nat → List PhysStage → Bool
  | _, [] => false
  | c, s :: rest => stageHasFail c s || stageHasFailList c rest
end

/-- The final build state of a successful translator result. -/
def okState (r : Except BErr (PhysStage × PlanStageSlots × BuildSt)) : Option BuildSt :=
  match r with
  | .ok (_, _, st) => some st
  | .error _ => none

/-- Whether a translator result succeeded. -/
def okBool (r : Except BErr (PhysStage × PlanStageSlots × BuildSt)) : Bool :=
  match r with
  | .ok _ => true
  | .error _ => false

/-! ## C9: the builder is single-use -/

/-- C9: For every builder whose `_buildHasStarted` flag is clear, the first
invocation of the top-level entry point sets the flag (whether it succeeds
or fails), so a second invocation — with any context and any root — fails
the single-use `invariant`. -/
theorem build_twice_fails (ctx ctx2 : BuildCtx) (root root2 : QSN)
    (b : SlotBasedStageBuilder) (h : b.buildHasStarted = false) :
    (SlotBasedStageBuilder.runBuild ctx2 root2
      (SlotBasedStageBuilder.runBuild ctx root b).2).1 = .error .invariantViolation := by
  have h2 : (SlotBasedStageBuilder.runBuild ctx root b).2.buildHasStarted = true := by
    simp only [SlotBasedStageBuilder.runBuild, h, Bool.false_eq_true, if_false]
    split
    next => rfl
    next =>
      split
      next => rfl
      next =>
        split
        next => rfl
        next =>
          split
          next => rfl
          next => rfl
  rw [SlotBasedStageBuilder.runBuild, if_pos h2]

/-- Witness for `build_twice_fails` on a concrete builder: the first build
succeeds and the second fails. -/
theorem build_twice_fails_witness :
    (SlotBasedStageBuilder.runBuild ⟨false, false, false, []⟩ QSN.eof
        (SlotBasedStageBuilder.runBuild ⟨false, false, false, []⟩
          (.virtualScan true [] false [])
          (SlotBasedStageBuilder.make ⟨false, false, false, []⟩
            (.virtualScan true [] false []))).2).1
      = .error .invariantViolation :=
  build_twice_fails ⟨false, false, false, []⟩ ⟨false, false, false, []⟩
    (.virtualScan true [] false []) QSN.eof
    (SlotBasedStageBuilder.make ⟨false, false, false, []⟩ (.virtualScan true [] false []))
    (by decide)

/-! ## C8: the EOF translator -/

theorem fromReqs_has (reqs : PlanStageReqs) (g : Nat) (n : SlotName) :
    (PlanStageSlots.fromReqs reqs g).1.has n = reqs.has n := by
  cases n <;>
    simp [PlanStageSlots.fromReqs, PlanStageSlots.has, PlanStageSlots.get,
      PlanStageReqs.has] <;>
    cases reqs.resultReq <;> cases reqs.recordIdReq <;> cases reqs.returnKeyReq <;>
    cases reqs.oplogTsReq <;> simp

theorem fromReqs_indexKeySlots (reqs : PlanStageReqs) (g : Nat) :
    (PlanStageSlots.fromReqs reqs g).1.indexKeySlots = none := by
  simp [PlanStageSlots.fromReqs]

theorem mem_slotVector {o : PlanStageSlots} {reqs : PlanStageReqs} {n : SlotName}
    {s : SlotId} (hr : reqs.has n = true) (ho : o.get n = some s) :
    s ∈ o.slotVector reqs := by
  cases n <;>
    simp only [PlanStageSlots.slotVector, slotNameOrder, List.foldr_cons, List.foldr_nil] <;>
    rw [hr, ho] <;>
    repeat' split <;> (try simp_all)

/-- C8: For every requirement set, the EOF translator returns a zero-row
plan — a co-scan under `limit 0` — whose bindings contain exactly the
requested named slots (and no index-key vector), each defined by a
projection of the constant `Nothing`, so slot-accessor lookups succeed. -/
theorem generateEofPlan_spec (reqs : PlanStageReqs) (st : BuildSt) :
    (generateEofPlan reqs st).2.1.indexKeySlots = none ∧
    (∀ n : SlotName, (generateEofPlan reqs st).2.1.has n = reqs.has n) ∧
    (∃ projects : List (SlotId × EExpr),
      (∀ pr ∈ projects, pr.2 = EExpr.constNothing) ∧
      (generateEofPlan reqs st).1 =
        (if projects.isEmpty then PhysStage.limitSkip (some 0) none .coScan
         else .project projects (.limitSkip (some 0) none .coScan)) ∧
      ∀ n : SlotName, reqs.has n = true →
        ∃ s, (generateEofPlan reqs st).2.1.get n = some s ∧
          (s, EExpr.constNothing) ∈ projects) := by
  refine ⟨?_, ?_, ?_⟩
  · simp [generateEofPlan, fromReqs_indexKeySlots]
  · intro n
    simp only [generateEofPlan]
    exact fromReqs_has reqs st.slotGen n
  · refine ⟨((PlanStageSlots.fromReqs reqs st.slotGen).1.slotVector reqs).map
      (fun s => (s, EExpr.constNothing)), ?_, ?_, ?_⟩
    · intro pr hpr
      obtain ⟨s, _, he⟩ := List.mem_map.mp hpr
      rw [← he]
    · simp [generateEofPlan]
    · intro n hn
      have hhas : (PlanStageSlots.fromReqs reqs st.slotGen).1.has n = true := by
        rw [fromReqs_has]; exact hn
      obtain ⟨s, hs⟩ := Option.isSome_iff_exists.mp hhas
      refine ⟨s, ?_, ?_⟩
      · simp only [generateEofPlan]
        exact hs
      · exact List.mem_map_of_mem _ (mem_slotVector hn hs)

/-- Witness for `generateEofPlan_spec`: with `result` required, the output
binds `result`. -/
theorem generateEofPlan_spec_witness :
    (generateEofPlan (PlanStageReqs.empty.set .result) ⟨1, 1, 1, []⟩).2.1.has .result
      = true := by
  have h :=
    (generateEofPlan_spec (PlanStageReqs.empty.set .result) ⟨1, 1, 1, []⟩).2.1 SlotName.result
  rw [h]
  decide

/-! ## C2: the tailable-cursor union -/

mutual
/-- Whether a stage tree contains a limit-skip operator with exactly the
given limit and skip values. -/
def stageHasLS (l s : Option Nat) : PhysStage → Bool
  | .limitSkip l2 s2 c => (l2 == l && s2 == s) || stageHasLS l s c
  | .project _ c => stageHasLS l s c
  | .filter _ _ c => stageHasLS l s c
  | .union bs _ _ => stageHasLSList l s bs
  | .loopJoin o i _ _ => stageHasLS l s o || stageHasLS l s i
  | .makeBsonObj _ _ _ _ _ _ _ _ c => stageHasLS l s c
  | .sortStage c _ _ _ _ _ _ => stageHasLS l s c
  | .traverse o i _ _ _ _ => stageHasLS l s o || stageHasLS l s i
  | _ => false

/-- List version of `stageHasLS` for union branches. -/
def stageHasLSList (l s : Option Nat) : List PhysStage → Bool
  | [] => false
  | b :: rest => stageHasLS l s b || stageHasLSList l s rest
end

/-- Counterexample to C2 as stated: for the tailable query
`LIMIT 10 (COLLSCAN)`, the produced union's resume branch contains no
limit-skip operator with limit 1 at all — so it is not "wrapped by a
limit 1" — while it is gated by the constant filter `exists(resumeRecordId)`
wrapped by a limit-skip with no limit and skip 1. -/
theorem tailable_union_resume_not_limit1 :
    (match build ⟨true, false, false, []⟩ (.limit 10 (.collScan false false true))
        (PlanStageReqs.empty.set .result) ⟨1, 1, 1, []⟩ with
     | .ok (.union [_, resumeBranch] _ _, _, _) =>
         !(stageHasLS (some 1) none resumeBranch) &&
           (match resumeBranch with
            | .filter true (.func "exists" [.evar _]) (.limitSkip none (some 1) _) => true
            | _ => false)
     | _ => false) = true := by
  decide

/-- C2 (amended): When the tailable rewrite fires — the query is tailable,
the node is a collscan/limit/skip, and no union is being built yet — the
produced union has exactly two branches built from the same logical
subtree: an anchor branch gated by a constant filter
`¬ exists(resumeRecordId)` built with the resume-branch flag clear (so
limit/skip operators are kept), and a resume branch gated by a constant
filter `exists(resumeRecordId)` wrapped by a limit-skip with no limit and
skip 1 (not a limit 1), built with the resume-branch flag set, under which
the limit and skip translators emit no limit-skip operator. -/
theorem tailable_union_anchor_resume (ctx : BuildCtx) (root : QSN)
    (reqs : PlanStageReqs) (st : BuildSt)
    (htail : ctx.tailable = true)
    (htarget : isTailableRewriteTarget root = true)
    (hflag : reqs.isBuildingUnionForTailableCollScan = false)
    (hok : okBool (build ctx root reqs st) = true) :
    (∃ rs aStage aOut st2 rStage rOut st3,
      rs = (registerSlot "resumeRecordId" st).1 ∧
      buildFlagged ctx root
        { reqs with isBuildingUnionForTailableCollScan := true,
                    isTailableCollScanResumeBranch := false }
        (registerSlot "resumeRecordId" st).2 = .ok (aStage, aOut, st2) ∧
      buildFlagged ctx root
        { reqs with isBuildingUnionForTailableCollScan := true,
                    isTailableCollScanResumeBranch := true } st2
        = .ok (rStage, rOut, st3) ∧
      okStage (build ctx root reqs st) = some (.union
        [.filter true (makeNot (makeFunction "exists" [.evar rs])) aStage,
         .filter true (makeFunction "exists" [.evar rs]) (.limitSkip none (some 1) rStage)]
        [aOut.slotVector { reqs with isBuildingUnionForTailableCollScan := true },
         rOut.slotVector { reqs with isBuildingUnionForTailableCollScan := true }]
        ((PlanStageSlots.fromReqs { reqs with isBuildingUnionForTailableCollScan := true }
            st3.slotGen).1.slotVector
          { reqs with isBuildingUnionForTailableCollScan := true }))) ∧
    (∀ (n : Nat) (c : QSN) (reqs2 : PlanStageReqs) (st0 : BuildSt),
      reqs2.isTailableCollScanResumeBranch = true →
      buildFlagged ctx (.limit n c) reqs2 st0 =
        (match c with
         | .skip _ gc => buildFlagged ctx gc reqs2 st0
         | _ => buildFlagged ctx c reqs2 st0)) ∧
    (∀ (m : Nat) (c : QSN) (reqs2 : PlanStageReqs) (st0 : BuildSt),
      reqs2.isTailableCollScanResumeBranch = true →
      buildFlagged ctx (.skip m c) reqs2 st0 = buildFlagged ctx c reqs2 st0) := by
  refine ⟨?_, ?_, ?_⟩
  · rw [build.eq_def, if_pos (by rw [htarget, htail, hflag]; rfl)] at hok ⊢
    by_cases hbit : reqs.indexKeyBitset.isSome
    · exfalso
      have : ({ reqs with isBuildingUnionForTailableCollScan := true }
          : PlanStageReqs).indexKeyBitset.isSome = true := hbit
      rw [if_pos this] at hok
      simp [okBool] at hok
    · have hbit' : ({ reqs with isBuildingUnionForTailableCollScan := true }
          : PlanStageReqs).indexKeyBitset.isSome = false := by
        simp at hbit
        simp [hbit]
      rw [if_neg (by rw [hbit']; exact fun hh => by cases hh)] at hok ⊢
      dsimp only at hok ⊢
      split at hok
      next => simp [okBool] at hok
      next aStage aOut st2 hA =>
        split at hok
        next => simp [okBool] at hok
        next rStage rOut st3 hR =>
          split at hok
          next => simp [okBool] at hok
          next hlen =>
            refine ⟨(registerSlot "resumeRecordId" st).1, aStage, aOut, st2, rStage,
              rOut, st3, rfl, hA, hR, ?_⟩
            rw [if_neg hlen]
            rfl
  · intro n c reqs2 st0 hres
    obtain ⟨r1, r2, r3, r4, r5, r6, r7⟩ := reqs2
    cases hres
    cases c <;>
      simp only [buildFlagged, Bool.not_true, Bool.false_eq_true, if_false] <;>
      (split <;> simp_all)
  · intro m c reqs2 st0 hres
    obtain ⟨r1, r2, r3, r4, r5, r6, r7⟩ := reqs2
    cases hres
    simp only [buildFlagged, Bool.not_true, Bool.false_eq_true, if_false]
    split <;> simp_all

/-- Witness for the tailable-union theorem: a tailable `limit 10` over a
collection scan, with only the result object required, builds successfully
and the theorem applies. -/
theorem tailable_union_anchor_resume_witness :
    (⟨true, false, false, []⟩ : BuildCtx).tailable = true ∧
    isTailableRewriteTarget (QSN.limit 10 (.collScan false false true)) = true ∧
    (PlanStageReqs.empty.set .result).isBuildingUnionForTailableCollScan = false ∧
    okBool (build ⟨true, false, false, []⟩ (QSN.limit 10 (.collScan false false true))
      (PlanStageReqs.empty.set .result) ⟨1, 1, 1, []⟩) = true ∧
    ((∃ rs aStage aOut st2 rStage rOut st3,
      rs = (registerSlot "resumeRecordId" (⟨1, 1, 1, []⟩ : BuildSt)).1 ∧
      buildFlagged ⟨true, false, false, []⟩ (QSN.limit 10 (.collScan false false true))
        { (PlanStageReqs.empty.set .result) with isBuildingUnionForTailableCollScan := true, isTailableCollScanResumeBranch := false }
        (registerSlot "resumeRecordId" (⟨1, 1, 1, []⟩ : BuildSt)).2 = .ok (aStage, aOut, st2) ∧
      buildFlagged ⟨true, false, false, []⟩ (QSN.limit 10 (.collScan false false true))
        { (PlanStageReqs.empty.set .result) with isBuildingUnionForTailableCollScan := true, isTailableCollScanResumeBranch := true } st2
        = .ok (rStage, rOut, st3) ∧
      okStage (build ⟨true, false, false, []⟩ (QSN.limit 10 (.collScan false false true))
          (PlanStageReqs.empty.set .result) ⟨1, 1, 1, []⟩) = some (.union
        [.filter true (makeNot (makeFunction "exists" [.evar rs])) aStage,
         .filter true (makeFunction "exists" [.evar rs]) (.limitSkip none (some 1) rStage)]
        [aOut.slotVector { (PlanStageReqs.empty.set .result) with isBuildingUnionForTailableCollScan := true },
         rOut.slotVector { (PlanStageReqs.empty.set .result) with isBuildingUnionForTailableCollScan := true }]
        ((PlanStageSlots.fromReqs { (PlanStageReqs.empty.set .result) with isBuildingUnionForTailableCollScan := true }
            st3.slotGen).1.slotVector
          { (PlanStageReqs.empty.set .result) with isBuildingUnionForTailableCollScan := true }))) ∧
    (∀ (n : Nat) (c : QSN) (reqs2 : PlanStageReqs) (st0 : BuildSt),
      reqs2.isTailableCollScanResumeBranch = true →
      buildFlagged ⟨true, false, false, []⟩ (.limit n c) reqs2 st0 =
        (match c with
         | .skip _ gc => buildFlagged ⟨true, false, false, []⟩ gc reqs2 st0
         | _ => buildFlagged ⟨true, false, false, []⟩ c reqs2 st0)) ∧
    (∀ (m : Nat) (c : QSN) (reqs2 : PlanStageReqs) (st0 : BuildSt),
      reqs2.isTailableCollScanResumeBranch = true →
      buildFlagged ⟨true, false, false, []⟩ (.skip m c) reqs2 st0 =
        buildFlagged ⟨true, false, false, []⟩ c reqs2 st0)) :=
  ⟨rfl, rfl, rfl, by decide,
   tailable_union_anchor_resume ⟨true, false, false, []⟩
     (QSN.limit 10 (.collScan false false true))
     (PlanStageReqs.empty.set .result) ⟨1, 1, 1, []⟩ rfl rfl rfl (by decide)⟩

/-! ## C1: what the returned bindings contain -/

/-- Setting one named slot preserves every already-bound name. -/
theorem has_set_mono {o : PlanStageSlots} {m n : SlotName} {s : SlotId}
    (h : o.has n = true) : (o.set m s).has n = true := by
  cases m <;> cases n <;>
    simp_all [PlanStageSlots.set, PlanStageSlots.has, PlanStageSlots.get]

/-- Setting a named slot binds it. -/
theorem has_set_self (o : PlanStageSlots) (n : SlotName) (s : SlotId) :
    (o.set n s).has n = true := by
  cases n <;> simp [PlanStageSlots.set, PlanStageSlots.has, PlanStageSlots.get]

/-- Replacing the index-key vector leaves the named slots alone. -/
theorem has_setIndexKeySlots (o : PlanStageSlots) (v : Option (List SlotId)) (n : SlotName) :
    (o.setIndexKeySlots v).has n = o.has n := by
  cases n <;> rfl

/-- Setting a named slot leaves the index-key vector alone. -/
theorem indexKeySlots_set (o : PlanStageSlots) (m : SlotName) (s : SlotId) :
    (o.set m s).indexKeySlots = o.indexKeySlots := by
  cases m <;> rfl

/-- Requirement-side monotonicity of `set`. -/
theorem reqs_has_set_mono {r : PlanStageReqs} {m n : SlotName}
    (h : r.has n = true) : (r.set m).has n = true := by
  cases m <;> cases n <;> simp_all [PlanStageReqs.set, PlanStageReqs.has]

/-- Requirement-side monotonicity of `setIf`. -/
theorem reqs_has_setIf_mono {r : PlanStageReqs} {m : SlotName} {b : Bool} {n : SlotName}
    (h : r.has n = true) : (r.setIf m b).has n = true := by
  unfold PlanStageReqs.setIf
  split
  · exact reqs_has_set_mono h
  · exact h

/-- `set` on requirements leaves the bitset alone. -/
theorem reqs_bitset_set (r : PlanStageReqs) (m : SlotName) :
    (r.set m).indexKeyBitset = r.indexKeyBitset := by
  cases m <;> rfl

/-- `setIf` on requirements leaves the bitset alone. -/
theorem reqs_bitset_setIf (r : PlanStageReqs) (m : SlotName) (b : Bool) :
    (r.setIf m b).indexKeyBitset = r.indexKeyBitset := by
  unfold PlanStageReqs.setIf
  split
  · exact reqs_bitset_set r m
  · rfl

/-- `clear` on requirements leaves the bitset alone. -/
theorem reqs_bitset_clear (r : PlanStageReqs) (m : SlotName) :
    (r.clear m).indexKeyBitset = r.indexKeyBitset := by
  cases m <;> rfl

/-- A successful collection-scan translation binds every requested name. -/
theorem buildCollScan_has {reqs : PlanStageReqs} {st : BuildSt}
    {stage : PhysStage} {o : PlanStageSlots} {st2 : BuildSt} {n : SlotName}
    (h : buildCollScan reqs st = .ok (stage, o, st2))
    (hn : reqs.has n = true) : o.has n = true := by
  obtain ⟨r1, r2, r3, r4, bit, f1, f2⟩ := reqs
  cases bit
  case some => simp [buildCollScan] at h
  case none =>
    cases n <;> cases r1 <;> cases r2 <;> cases r3 <;> cases r4 <;>
      simp_all [buildCollScan, generateCollScan, PlanStageReqs.has, PlanStageReqs.empty,
        PlanStageSlots.fromReqs, genSlot, PlanStageSlots.set, PlanStageSlots.has,
        PlanStageSlots.get] <;>
      (obtain ⟨h1, h2, h3⟩ := h; subst h2; rfl)

/-- A successful collection-scan translation returns no index-key vector. -/
theorem buildCollScan_ikNone {reqs : PlanStageReqs} {st : BuildSt}
    {stage : PhysStage} {o : PlanStageSlots} {st2 : BuildSt}
    (h : buildCollScan reqs st = .ok (stage, o, st2)) : o.indexKeySlots = none := by
  obtain ⟨r1, r2, r3, r4, bit, f1, f2⟩ := reqs
  cases bit
  case some => simp [buildCollScan] at h
  case none =>
    cases r1 <;> cases r2 <;> cases r3 <;> cases r4 <;>
      simp_all [buildCollScan, generateCollScan, PlanStageReqs.has, PlanStageReqs.empty,
        PlanStageSlots.fromReqs, genSlot, PlanStageSlots.set, PlanStageSlots.has,
        PlanStageSlots.get] <;>
      first
      | rfl
      | (obtain ⟨h1, h2, h3⟩ := h; subst h2; rfl)

/-- A successful index-scan translation binds every requested name. -/
theorem buildIndexScan_has {kp : List String} {md : Bool} {reqs : PlanStageReqs}
    {st : BuildSt} {stage : PhysStage} {o : PlanStageSlots} {st2 : BuildSt} {n : SlotName}
    (h : buildIndexScan kp md reqs st = .ok (stage, o, st2))
    (hn : reqs.has n = true) : o.has n = true := by
  obtain ⟨r1, r2, r3, r4, bit, f1, f2⟩ := reqs
  cases n <;> cases md <;> cases bit <;>
    cases r1 <;> cases r2 <;> cases r3 <;> cases r4 <;>
    simp_all [buildIndexScan, generateIndexScan, PlanStageReqs.has, PlanStageSlots.empty,
      genSlot, PlanStageSlots.set, PlanStageSlots.setIndexKeySlots, PlanStageSlots.has,
      PlanStageSlots.get] <;>
    first
    | rfl
    | (obtain ⟨h1, h2, h3⟩ := h; subst h2; rfl)

/-- An index-scan translation returns no index-key vector when the parent
set no bitset. -/
theorem buildIndexScan_ikNone {kp : List String} {md : Bool} {reqs : PlanStageReqs}
    {st : BuildSt} {stage : PhysStage} {o : PlanStageSlots} {st2 : BuildSt}
    (h : buildIndexScan kp md reqs st = .ok (stage, o, st2))
    (hb : reqs.indexKeyBitset = none) : o.indexKeySlots = none := by
  obtain ⟨r1, r2, r3, r4, bit, f1, f2⟩ := reqs
  subst hb
  cases md <;> cases r1 <;> cases r2 <;> cases r3 <;> cases r4 <;>
    simp_all [buildIndexScan, generateIndexScan, PlanStageReqs.has, PlanStageSlots.empty,
      genSlot, PlanStageSlots.set, PlanStageSlots.setIndexKeySlots, PlanStageSlots.has,
      PlanStageSlots.get] <;>
    first
    | rfl
    | (obtain ⟨h1, h2, h3⟩ := h; subst h2; rfl)

/-- A virtual-scan translation returns no index-key vector when the parent
set no bitset. -/
theorem buildVirtualScan_ikNone {hasRid mock : Bool} {kp : List String}
    {reqs : PlanStageReqs} {st : BuildSt} {stage : PhysStage} {o : PlanStageSlots}
    {st2 : BuildSt}
    (h : buildVirtualScan hasRid mock kp reqs st = .ok (stage, o, st2))
    (hb : reqs.indexKeyBitset = none) : o.indexKeySlots = none := by
  obtain ⟨r1, r2, r3, r4, bit, f1, f2⟩ := reqs
  subst hb
  cases hasRid <;> cases mock <;> cases r1 <;> cases r2 <;> cases r4 <;>
    simp_all [buildVirtualScan, generateVirtualScanMulti, vsFinish, PlanStageReqs.has,
      PlanStageSlots.empty, PlanStageSlots.set, PlanStageSlots.has, PlanStageSlots.get] <;>
    first
    | rfl
    | (obtain ⟨h1, h2, h3⟩ := h; subst h2; rfl)

/-- The bindings a successful fetch tail returns: the child bindings with
`result` and `recordId` rebound to the fetch slots. -/
theorem buildFetchRest_outputs {hf : Bool} {reqs : PlanStageReqs} {stage : PhysStage}
    {outs : PlanStageSlots} {st : BuildSt} {s2 : PhysStage} {o : PlanStageSlots}
    {st2 : BuildSt}
    (h : buildFetchRest hf reqs stage outs st = .ok (s2, o, st2)) :
    ∃ a b, o = (outs.set .result a).set .recordId b := by
  unfold buildFetchRest at h
  split at h
  · exact absurd h (by simp)
  · split at h
    · exact absurd h (by simp)
    · simp only [makeLoopJoinForFetch, genSlot, Except.ok.injEq, Prod.mk.injEq] at h
      exact ⟨_, _, h.2.1.symm⟩

/-- A successful sort tail passes the child bindings through unchanged. -/
theorem buildSortRest_outputs {ctx : BuildCtx} {pattern : List (List String × Bool)}
    {lim mm : Nat} {creq : PlanStageReqs} {stage : PhysStage} {outs : PlanStageSlots}
    {st : BuildSt} {s2 : PhysStage} {o : PlanStageSlots} {st2 : BuildSt}
    (h : buildSortRest ctx pattern lim mm creq stage outs st = .ok (s2, o, st2)) :
    o = outs := by
  unfold buildSortRest at h
  split at h
  · exact absurd h (by simp)
  · simp only [genSlot] at h
    split at h <;>
      (simp only [Except.ok.injEq, Prod.mk.injEq] at h; exact h.2.1.symm)

/-- The bindings a successful covered shard-filter tail returns: the child
bindings with the index-key vector replaced by the narrowing of the child
vector to the parent bitset. -/
theorem buildShardFilterCoveredRest_outputs {p : Option (List Bool)} {u : List Bool}
    {pf : List String} {stage : PhysStage} {outs : PlanStageSlots} {st : BuildSt}
    {s2 : PhysStage} {o : PlanStageSlots} {st2 : BuildSt}
    (h : buildShardFilterCoveredRest p u pf stage outs st = .ok (s2, o, st2)) :
    ∃ ik, outs.indexKeySlots = some ik ∧
      o = outs.setIndexKeySlots
        (p.map (fun pb => makeIndexKeyOutputSlotsMatchingParentReqs pb u ik)) := by
  unfold buildShardFilterCoveredRest at h
  split at h
  · exact absurd h (by simp)
  · next ik heq =>
      simp only [genSlot, Except.ok.injEq, Prod.mk.injEq] at h
      refine ⟨ik, heq, ?_⟩
      cases p
      · exact h.2.1.symm
      · exact h.2.1.symm

/-- A successful non-covered shard-filter tail passes the child bindings
through unchanged. -/
theorem buildShardFilterRest_outputs {ctx : BuildCtx} {stage : PhysStage}
    {outs : PlanStageSlots} {st : BuildSt} {s2 : PhysStage} {o : PlanStageSlots}
    {st2 : BuildSt}
    (h : buildShardFilterRest ctx stage outs st = .ok (s2, o, st2)) : o = outs := by
  unfold buildShardFilterRest at h
  split at h
  · exact absurd h (by simp)
  · split at h
    simp only [genSlot] at h
    split at h
    · exact absurd h (by simp)
    · simp only [Except.ok.injEq, Prod.mk.injEq] at h
      exact h.2.1.symm

/-- Strong induction on the node count: a successful `build` over a tree
free of virtual-scan mocks binds every name its requirements demand. -/
theorem build_has_aux (ctx : BuildCtx) : ∀ (k : Nat) (root : QSN), QSN.size root ≤ k →
    ∀ (reqs : PlanStageReqs) (st : BuildSt) (stage : PhysStage) (o : PlanStageSlots)
      (st2 : BuildSt) (n : SlotName),
    noVirtualScan root = true →
    build ctx root reqs st = .ok (stage, o, st2) →
    reqs.has n = true → o.has n = true := by
  intro k
  induction k with
  | zero =>
      intro root hsz
      cases root <;> simp [QSN.size] at hsz
  | succ k ih =>
    intro root hsz reqs st stage o st2 n hnv h hn
    rw [build.eq_def] at h
    split at h
    · -- the tailable-union rewrite fired
      dsimp only at h
      split at h
      · exact absurd h (by simp)
      · split at h
        · exact absurd h (by simp)
        · split at h
          · exact absurd h (by simp)
          · split at h
            · exact absurd h (by simp)
            · simp only [Except.ok.injEq, Prod.mk.injEq] at h
              rw [← h.2.1, fromReqs_has]
              cases n <;> exact hn
    · cases root with
      | collScan a b c => exact buildCollScan_has h hn
      | virtualScan a b c d => simp [noVirtualScan] at hnv
      | ixscan kp md => exact buildIndexScan_has h hn
      | eof =>
          replace h : Except.ok (generateEofPlan reqs st) = Except.ok (stage, o, st2) := h
          simp only [Except.ok.injEq] at h
          rw [show o = (PlanStageSlots.fromReqs reqs st.slotGen).1 from
            (congrArg (fun t => t.2.1) h).symm, fromReqs_has]
          exact hn
      | fetch hf child =>
          simp only [QSN.size] at hsz
          simp only [noVirtualScan] at hnv
          dsimp only at h
          split at h
          case isTrue => exact absurd h (by simp)
          case isFalse hno =>
            split at h
            · exact absurd h (by simp)
            · next s0 o0 st0 hc =>
                obtain ⟨a, b, ho⟩ := buildFetchRest_outputs h
                subst ho
                cases n with
                | result => exact has_set_mono (has_set_self _ _ _)
                | recordId => exact has_set_self _ _ _
                | returnKey =>
                    have hn2 : ((reqs.copy.clear .result).set .recordId).has .returnKey =
                      true := hn
                    exact has_set_mono (has_set_mono
                      (ih child (by omega) _ _ _ _ _ _ hnv hc hn2))
                | oplogTs => exact absurd hn hno
      | limit m child =>
          simp only [QSN.size] at hsz
          simp only [noVirtualScan] at hnv
          dsimp only at h
          split at h
          · rename_i mskip gc hc2
            simp only [QSN.size] at hsz
            simp only [noVirtualScan] at hnv
            split at h
            · exact absurd h (by simp)
            · next s0 o0 st0 hc =>
                simp only [Except.ok.injEq, Prod.mk.injEq] at h
                rw [← h.2.1]
                exact ih gc (by omega) _ _ _ _ _ _ hnv hc hn
          · split at h
            · exact absurd h (by simp)
            · next s0 o0 st0 hc =>
                simp only [Except.ok.injEq, Prod.mk.injEq] at h
                rw [← h.2.1]
                exact ih child (by omega) _ _ _ _ _ _ hnv hc hn
      | skip m child =>
          simp only [QSN.size] at hsz
          simp only [noVirtualScan] at hnv
          dsimp only at h
          split at h
          · exact absurd h (by simp)
          · next s0 o0 st0 hc =>
              simp only [Except.ok.injEq, Prod.mk.injEq] at h
              rw [← h.2.1]
              exact ih child (by omega) _ _ _ _ _ _ hnv hc hn
      | sort pattern lim mm child =>
          simp only [QSN.size] at hsz
          simp only [noVirtualScan] at hnv
          dsimp only at h
          split at h
          · exact absurd h (by simp)
          · split at h
            · exact absurd h (by simp)
            · split at h
              · exact absurd h (by simp)
              · next s0 o0 st0 hc =>
                  rw [buildSortRest_outputs h]
                  exact ih child (by omega) _ _ _ _ _ _ hnv hc (reqs_has_set_mono hn)
      | shardingFilter child =>
          simp only [QSN.size] at hsz
          simp only [noVirtualScan] at hnv
          dsimp only at h
          split at h
          · split at h
            · exact absurd h (by simp)
            · next s0 o0 st0 hc =>
                obtain ⟨ik, hik, ho⟩ := buildShardFilterCoveredRest_outputs h
                subst ho
                rw [has_setIndexKeySlots]
                exact ih child (by omega) _ _ _ _ _ _ hnv hc (reqs_has_setIf_mono hn)
          · split at h
            · exact absurd h (by simp)
            · next s0 o0 st0 hc =>
                rw [buildShardFilterRest_outputs h]
                exact ih child (by omega) _ _ _ _ _ _ hnv hc (reqs_has_setIf_mono hn)

/-- Strong induction on the node count: a successful `build` returns no
index-key slot vector when the requirements set no bitset. -/
theorem build_ik_aux (ctx : BuildCtx) : ∀ (k : Nat) (root : QSN), QSN.size root ≤ k →
    ∀ (reqs : PlanStageReqs) (st : BuildSt) (stage : PhysStage) (o : PlanStageSlots)
      (st2 : BuildSt),
    build ctx root reqs st = .ok (stage, o, st2) →
    reqs.indexKeyBitset = none → o.indexKeySlots = none := by
  intro k
  induction k with
  | zero =>
      intro root hsz
      cases root <;> simp [QSN.size] at hsz
  | succ k ih =>
    intro root hsz reqs st stage o st2 h hb
    rw [build.eq_def] at h
    split at h
    · dsimp only at h
      split at h
      · exact absurd h (by simp)
      · split at h
        · exact absurd h (by simp)
        · split at h
          · exact absurd h (by simp)
          · split at h
            · exact absurd h (by simp)
            · simp only [Except.ok.injEq, Prod.mk.injEq] at h
              rw [← h.2.1, fromReqs_indexKeySlots]
    · cases root with
      | collScan a b c => exact buildCollScan_ikNone h
      | virtualScan a b c d => exact buildVirtualScan_ikNone h hb
      | ixscan kp md => exact buildIndexScan_ikNone h hb
      | eof =>
          replace h : Except.ok (generateEofPlan reqs st) = Except.ok (stage, o, st2) := h
          simp only [Except.ok.injEq] at h
          rw [show o = (PlanStageSlots.fromReqs reqs st.slotGen).1 from
            (congrArg (fun t => t.2.1) h).symm, fromReqs_indexKeySlots]
      | fetch hf child =>
          simp only [QSN.size] at hsz
          dsimp only at h
          split at h
          · exact absurd h (by simp)
          · split at h
            · exact absurd h (by simp)
            · next s0 o0 st0 hc =>
                obtain ⟨a, b, ho⟩ := buildFetchRest_outputs h
                subst ho
                rw [indexKeySlots_set, indexKeySlots_set]
                refine ih child (by omega) _ _ _ _ _ hc ?_
                rw [reqs_bitset_set, reqs_bitset_clear]
                exact hb
      | limit m child =>
          simp only [QSN.size] at hsz
          dsimp only at h
          split at h
          · rename_i mskip gc hc2
            simp only [QSN.size] at hsz
            split at h
            · exact absurd h (by simp)
            · next s0 o0 st0 hc =>
                simp only [Except.ok.injEq, Prod.mk.injEq] at h
                rw [← h.2.1]
                exact ih gc (by omega) _ _ _ _ _ hc hb
          · split at h
            · exact absurd h (by simp)
            · next s0 o0 st0 hc =>
                simp only [Except.ok.injEq, Prod.mk.injEq] at h
                rw [← h.2.1]
                exact ih child (by omega) _ _ _ _ _ hc hb
      | skip m child =>
          simp only [QSN.size] at hsz
          dsimp only at h
          split at h
          · exact absurd h (by simp)
          · next s0 o0 st0 hc =>
              simp only [Except.ok.injEq, Prod.mk.injEq] at h
              rw [← h.2.1]
              exact ih child (by omega) _ _ _ _ _ hc hb
      | sort pattern lim mm child =>
          simp only [QSN.size] at hsz
          dsimp only at h
          split at h
          · exact absurd h (by simp)
          · split at h
            · exact absurd h (by simp)
            · split at h
              · exact absurd h (by simp)
              · next s0 o0 st0 hc =>
                  rw [buildSortRest_outputs h]
                  refine ih child (by omega) _ _ _ _ _ hc ?_
                  rw [reqs_bitset_set]
                  exact hb
      | shardingFilter child =>
          simp only [QSN.size] at hsz
          dsimp only at h
          split at h
          · split at h
            · exact absurd h (by simp)
            · next s0 o0 st0 hc =>
                obtain ⟨ik, hik, ho⟩ := buildShardFilterCoveredRest_outputs h
                subst ho
                have hb2 : (reqs.copy.setIf .result
                    (shardChildIndexKeyPattern child).isEmpty).indexKeyBitset = none := by
                  rw [reqs_bitset_setIf]
                  exact hb
                simp [PlanStageSlots.setIndexKeySlots, hb2]
          · split at h
            · exact absurd h (by simp)
            · next s0 o0 st0 hc =>
                rw [buildShardFilterRest_outputs h]
                refine ih child (by omega) _ _ _ _ _ hc ?_
                rw [reqs_bitset_setIf]
                exact hb

/-- C1 counterexample to the original wording: on a fetch over a
collection scan with only `result` requested, the returned bindings also
contain the unrequested `recordId` (the fetch translator always rebinds
`result` and `recordId`), so the bindings do not match the requirements
exactly. -/
theorem fetch_binds_unrequested_recordId :
    (match build ⟨false, false, false, []⟩ (.fetch false (.collScan false false false))
        (PlanStageReqs.empty.set .result) ⟨1, 1, 1, []⟩ with
     | .ok (_, o, _) =>
        o.has .recordId && !((PlanStageReqs.empty.set .result).has .recordId)
     | .error _ => false) = true := by decide

/-- C1, amended: for every solution tree free of virtual-scan mocks and
every requirement set, a successful `build` returns bindings that contain
every requested named slot (they may contain more: fetch always rebinds
`result` and `recordId`), and no index-key slot vector unless the parent
set an index-key bitset. -/
theorem build_outputs_contain_requested (ctx : BuildCtx) (root : QSN)
    (reqs : PlanStageReqs) (st : BuildSt) (stage : PhysStage) (o : PlanStageSlots)
    (st2 : BuildSt) (hnv : noVirtualScan root = true)
    (h : build ctx root reqs st = .ok (stage, o, st2)) :
    (∀ n, reqs.has n = true → o.has n = true) ∧
    (reqs.indexKeyBitset = none → o.indexKeySlots = none) :=
  ⟨fun n hn => build_has_aux ctx (QSN.size root) root le_rfl reqs st stage o st2 n hnv h hn,
   fun hb => build_ik_aux ctx (QSN.size root) root le_rfl reqs st stage o st2 h hb⟩

/-- Witness for the amended containment theorem: an EOF plan with only
`result` requested binds exactly the fresh result slot. -/
theorem build_outputs_contain_requested_witness :
    noVirtualScan QSN.eof = true ∧
    build ⟨false, false, false, []⟩ QSN.eof (PlanStageReqs.empty.set .result) ⟨1, 1, 1, []⟩
      = .ok (.project [(1, .constNothing)] (.limitSkip (some 0) none .coScan),
             ⟨some 1, none, none, none, none⟩, ⟨2, 1, 1, []⟩) ∧
    ((∀ n, (PlanStageReqs.empty.set .result).has n = true →
        (⟨some 1, none, none, none, none⟩ : PlanStageSlots).has n = true) ∧
     ((PlanStageReqs.empty.set .result).indexKeyBitset = none →
        (⟨some 1, none, none, none, none⟩ : PlanStageSlots).indexKeySlots = none)) :=
  ⟨rfl, rfl,
   build_outputs_contain_requested ⟨false, false, false, []⟩ QSN.eof
     (PlanStageReqs.empty.set .result) ⟨1, 1, 1, []⟩ _ _ _ rfl rfl⟩

/-! ## C5: index-scan bitset union and narrowing -/

/-- A replicated-true bitset of length `n` counts `n`. -/
theorem countP_replicate_true (n : Nat) :
    (List.replicate n true).countP (fun b => b) = n := by
  induction n with
  | zero => rfl
  | succ m ih => simp [List.replicate, List.countP_cons, ih]

/-- Narrowing from the all-parts child bitset selects exactly the slots at
the parent bitset positions. -/
theorem mk_narrow_full : ∀ (pb : List Bool) (n : Nat) (slots : List SlotId),
    slots.length = n →
    makeIndexKeyOutputSlotsMatchingParentReqs pb (List.replicate n true) slots =
      (pb.zip slots).filterMap (fun x => if x.1 then some x.2 else none) := by
  intro pb
  induction pb with
  | nil => intro n slots h; cases n <;> rfl
  | cons p ps ih =>
      intro n slots h
      cases n with
      | zero =>
          cases slots with
          | nil => rfl
          | cons a b => simp at h
      | succ m =>
          cases slots with
          | nil => simp at h
          | cons s srest =>
              simp only [List.replicate, makeIndexKeyOutputSlotsMatchingParentReqs, if_true]
              rw [ih m srest (by simpa using h)]
              cases p <;> simp

/-- Narrowing a vector aligned with the parent bitset itself returns the
vector unchanged. -/
theorem mk_narrow_self : ∀ (pb : List Bool) (slots : List SlotId),
    slots.length = pb.countP (fun b => b) →
    makeIndexKeyOutputSlotsMatchingParentReqs pb pb slots = slots := by
  intro pb
  induction pb with
  | nil =>
      intro slots h
      cases slots with
      | nil => rfl
      | cons a b => simp at h
  | cons p ps ih =>
      intro slots h
      cases p with
      | false =>
          simp only [makeIndexKeyOutputSlotsMatchingParentReqs, Bool.false_eq_true, if_false]
          exact ih slots (by simpa [List.countP_cons] using h)
      | true =>
          cases slots with
          | nil => simp [List.countP_cons] at h
          | cons s srest =>
              simp only [makeIndexKeyOutputSlotsMatchingParentReqs, if_true]
              rw [ih srest (by simpa [List.countP_cons] using h)]
              rfl

/-- C5: The index-scan translator hands the body generator the all-parts
bitset whenever the parent requires `result` or `returnKey` and otherwise
exactly the parent's bitset (all-zeros when the parent set none); the
bindings it returns carry no index-key vector when the parent set none,
and otherwise the child vector narrowed to the parent's bit positions —
the slots at the parent's positions of the full vector in the all-parts
regime, and the untouched child vector (one slot per parent bit) in the
pass-through regime. -/
theorem buildIndexScan_requests_and_narrows (kp : List String) (md : Bool)
    (reqs : PlanStageReqs) (st : BuildSt) (stage : PhysStage) (o : PlanStageSlots)
    (st2 : BuildSt) (h : buildIndexScan kp md reqs st = .ok (stage, o, st2)) :
    findIndexScanBody stage = some (kp,
      (if reqs.has .returnKey || reqs.has .result then List.replicate kp.length true
       else reqs.indexKeyBitset.getD (List.replicate kp.length false)),
      (List.range ((if reqs.has .returnKey || reqs.has .result then
            List.replicate kp.length true
          else reqs.indexKeyBitset.getD (List.replicate kp.length false)).countP
            (fun b => b))).map (fun i => st.slotGen + i),
      if reqs.has .recordId then
        some (st.slotGen + ((if reqs.has .returnKey || reqs.has .result then
            List.replicate kp.length true
          else reqs.indexKeyBitset.getD (List.replicate kp.length false)).countP
            (fun b => b)))
      else none) ∧
    (reqs.indexKeyBitset = none → o.indexKeySlots = none) ∧
    (∀ pb, reqs.indexKeyBitset = some pb →
      o.indexKeySlots = some (if reqs.has .returnKey || reqs.has .result then
        (pb.zip ((List.range kp.length).map (fun i => st.slotGen + i))).filterMap
          (fun x => if x.1 then some x.2 else none)
      else (List.range (pb.countP (fun b => b))).map (fun i => st.slotGen + i))) := by
  obtain ⟨r1, r2, r3, r4, bit, f1, f2⟩ := reqs
  cases bit <;> cases md <;> cases r1 <;> cases r2 <;> cases r3 <;> cases r4 <;>
    simp_all [buildIndexScan, generateIndexScan, PlanStageReqs.has, PlanStageSlots.empty,
      genSlot, PlanStageSlots.set, PlanStageSlots.setIndexKeySlots, findIndexScanBody,
      rehydrateIndexKey, countP_replicate_true, mk_narrow_full, mk_narrow_self] <;>
    (obtain ⟨h1, h2, h3⟩ := h; subst h1; subst h2;
     simp [findIndexScanBody, countP_replicate_true, mk_narrow_full, mk_narrow_self])

/-- Witness for the index-scan narrowing theorem: key pattern `a, b`, the
parent requiring only the key part `b`; the body generator is asked for
exactly the parent bitset and the parent receives the single slot. -/
theorem buildIndexScan_requests_and_narrows_witness :
    findIndexScanBody (.indexScanBody ["a", "b"] [false, true] [5] none) =
      some (["a", "b"], [false, true], [5], none) ∧
    (({ PlanStageReqs.empty with indexKeyBitset := some [false, true] } : PlanStageReqs).indexKeyBitset = none →
      (⟨none, none, none, none, some [5]⟩ : PlanStageSlots).indexKeySlots = none) ∧
    (∀ pb, ({ PlanStageReqs.empty with indexKeyBitset := some [false, true] } : PlanStageReqs).indexKeyBitset = some pb →
      (⟨none, none, none, none, some [5]⟩ : PlanStageSlots).indexKeySlots =
        some (if ({ PlanStageReqs.empty with indexKeyBitset := some [false, true] } : PlanStageReqs).has .returnKey || ({ PlanStageReqs.empty with indexKeyBitset := some [false, true] } : PlanStageReqs).has .result then
          (pb.zip ((List.range (["a", "b"] : List String).length).map
            (fun i => (5 : Nat) + i))).filterMap
              (fun x => if x.1 then some x.2 else none)
        else (List.range (pb.countP (fun b => b))).map (fun i => (5 : Nat) + i))) :=
  buildIndexScan_requests_and_narrows ["a", "b"] false
    { PlanStageReqs.empty with indexKeyBitset := some [false, true] }
    ⟨5, 1, 1, []⟩ _ _ ⟨6, 1, 1, []⟩ rfl

/-! ## C4: the covered shard filter -/

/-- Full shape of a successful covered shard-filter tail: the shard-key
object is built from the union-bitset slots under the given field names,
`shardFilter` is applied on top, and the index-key vector is narrowed to
the parent bitset (absent when the parent set none). -/
theorem buildShardFilterCoveredRest_eq {p : Option (List Bool)} {u : List Bool}
    {pf : List String} {stage : PhysStage} {outs : PlanStageSlots} {st : BuildSt}
    {s2 : PhysStage} {o : PlanStageSlots} {st2 : BuildSt}
    (h : buildShardFilterCoveredRest p u pf stage outs st = .ok (s2, o, st2)) :
    ∃ ik, outs.indexKeySlots = some ik ∧
      s2 = .filter false
        (makeFunction "shardFilter" [.constOpaque "shardFilterer", .evar st.slotGen])
        (.makeBsonObj st.slotGen none none [] pf ik true false stage) ∧
      o = outs.setIndexKeySlots
        (p.map (fun pb => makeIndexKeyOutputSlotsMatchingParentReqs pb u ik)) ∧
      st2 = { st with slotGen := st.slotGen + 1 } := by
  unfold buildShardFilterCoveredRest at h
  split at h
  · exact absurd h (by simp)
  · next ik heq =>
      simp only [buildShardFilterGivenShardKeySlot, genSlot, Except.ok.injEq,
        Prod.mk.injEq] at h
      refine ⟨ik, heq, h.1.symm, ?_, h.2.2.symm⟩
      cases p
      · exact h.2.1.symm
      · exact h.2.1.symm

/-- C4: For a sharding-filter node over an index scan (or a virtual scan
mocking one, i.e. a child with a nonempty extracted key pattern) whose
parent does not require `result`, the child is asked for the bitwise union
of the parent's bitset and the shard-key inclusion bitset, the shard-key
object is assembled from exactly the union slots under the shard-key field
names in key order, `shardFilter` is applied on top, and the parent-visible
index-key vector is the union vector narrowed back to the parent's original
bitset — absent when the parent set none. -/
theorem buildShardFilter_covered (ctx : BuildCtx) (child : QSN)
    (reqs : PlanStageReqs) (st : BuildSt) (stage : PhysStage) (o : PlanStageSlots)
    (st2 : BuildSt)
    (hres : reqs.has .result = false)
    (hkp : shardChildIndexKeyPattern child ≠ [])
    (h : build ctx (.shardingFilter child) reqs st = .ok (stage, o, st2)) :
    ∃ s0 co st0 ik,
      build ctx child { (reqs.copy.setIf .result (shardChildIndexKeyPattern child).isEmpty) with indexKeyBitset := some (orBits (reqs.indexKeyBitset.getD []) (makeIndexKeyInclusionSet (shardChildIndexKeyPattern child) (ctx.shardKeyPattern.map Prod.fst)).1) } st
        = .ok (s0, co, st0) ∧
      co.indexKeySlots = some ik ∧
      stage = .filter false
        (makeFunction "shardFilter" [.constOpaque "shardFilterer", .evar st0.slotGen])
        (.makeBsonObj st0.slotGen none none []
          (makeIndexKeyInclusionSet (shardChildIndexKeyPattern child)
            (ctx.shardKeyPattern.map Prod.fst)).2 ik true false s0) ∧
      o = co.setIndexKeySlots (reqs.indexKeyBitset.map
        (fun pb => makeIndexKeyOutputSlotsMatchingParentReqs pb
          (orBits (reqs.indexKeyBitset.getD [])
            (makeIndexKeyInclusionSet (shardChildIndexKeyPattern child)
              (ctx.shardKeyPattern.map Prod.fst)).1) ik)) ∧
      (reqs.indexKeyBitset = none → o.indexKeySlots = none) := by
  rw [build.eq_def] at h
  rw [if_neg (by simp [isTailableRewriteTarget])] at h
  dsimp only at h
  rw [if_pos (by simp [PlanStageReqs.setIf, List.isEmpty_iff, hkp, hres,
    PlanStageReqs.copy])] at h
  split at h
  · exact absurd h (by simp)
  · next s0 co st0 hc =>
      obtain ⟨ik, hik, hs, ho, hst⟩ := buildShardFilterCoveredRest_eq h
      refine ⟨s0, co, st0, ik, ?_, hik, hs, ?_, ?_⟩
      · rw [reqs_bitset_setIf] at hc
        exact hc
      · rw [reqs_bitset_setIf] at ho
        exact ho
      · intro hb
        rw [ho, reqs_bitset_setIf]
        simp [PlanStageReqs.copy, hb, PlanStageSlots.setIndexKeySlots]

/-- Witness for the covered shard-filter theorem: shard key `a`, index
scan over key pattern `a, b`, parent with no requirements at all. -/
theorem buildShardFilter_covered_witness :
    ∃ s0 co st0 ik,
      build ⟨false, false, false, [("a", false)]⟩ (QSN.ixscan ["a", "b"] false)
        { PlanStageReqs.empty with indexKeyBitset := some [true, false] } ⟨1, 1, 1, []⟩
        = .ok (s0, co, st0) ∧
      co.indexKeySlots = some ik ∧
      (PhysStage.filter false
        (makeFunction "shardFilter" [.constOpaque "shardFilterer", .evar 2])
        (.makeBsonObj 2 none none [] ["a"] [1] true false
          (.indexScanBody ["a", "b"] [true, false] [1] none))) = .filter false
        (makeFunction "shardFilter" [.constOpaque "shardFilterer", .evar st0.slotGen])
        (.makeBsonObj st0.slotGen none none [] ["a"] ik true false s0) ∧
      (⟨none, none, none, none, none⟩ : PlanStageSlots) = co.setIndexKeySlots
        ((none : Option (List Bool)).map
          (fun pb => makeIndexKeyOutputSlotsMatchingParentReqs pb [true, false] ik)) ∧
      ((none : Option (List Bool)) = none →
        (⟨none, none, none, none, none⟩ : PlanStageSlots).indexKeySlots = none) :=
  buildShardFilter_covered ⟨false, false, false, [("a", false)]⟩
    (QSN.ixscan ["a", "b"] false) PlanStageReqs.empty ⟨1, 1, 1, []⟩
    (.filter false
      (makeFunction "shardFilter" [.constOpaque "shardFilterer", .evar 2])
      (.makeBsonObj 2 none none [] ["a"] [1] true false
        (.indexScanBody ["a", "b"] [true, false] [1] none)))
    ⟨none, none, none, none, none⟩ ⟨3, 1, 1, []⟩ rfl (by decide) rfl

/-! ## C6: sort-regime selection -/

/-- The fast regime makes one top-level projection per sort part. -/
theorem sortFieldProjections_len : ∀ (parts : List (List String × Bool))
    (r : SlotId) (g : Nat), (sortFieldProjections parts r g).1.length = parts.length := by
  intro parts
  induction parts with
  | nil => intro r g; rfl
  | cons p ps ih =>
      intro r g
      obtain ⟨path, asc⟩ := p
      simp [sortFieldProjections, ih]

/-- The fast regime makes one sort-key slot per sort part. -/
theorem sortKeyTraversals_len : ∀ (parts : List (SlotId × (List String × Bool)))
    (c : Option SlotId) (stage : PhysStage) (st : BuildSt),
    (sortKeyTraversals parts c stage st).1.length = parts.length := by
  intro parts
  induction parts with
  | nil => intro c stage st; rfl
  | cons p ps ih =>
      intro c stage st
      obtain ⟨slot, path, asc⟩ := p
      simp [sortKeyTraversals, ih]

/-- Once the common-prefix flag is set, the fold keeps the accumulator. -/
theorem commonPrefix_foldl_true : ∀ (parts : List (List String × Bool))
    (seen : List String),
    parts.foldl
      (fun acc part =>
        if acc.2 then acc
        else if acc.1.contains part.1.headI then (acc.1, true)
        else (part.1.headI :: acc.1, false))
      (seen, true) = (seen, true) := by
  intro parts
  induction parts with
  | nil => intro seen; rfl
  | cons p ps ih => intro seen; simpa [List.foldl_cons] using ih seen

/-- Characterization of the common-prefix fold: the flag stays clear
exactly when the top-level field names are pairwise distinct and avoid the
already-seen set. -/
theorem commonPrefix_foldl_false : ∀ (parts : List (List String × Bool))
    (seen : List String),
    ((parts.foldl
      (fun acc part =>
        if acc.2 then acc
        else if acc.1.contains part.1.headI then (acc.1, true)
        else (part.1.headI :: acc.1, false))
      (seen, false)).2 = false) ↔
    ((parts.map (fun p => p.1.headI)).Nodup ∧
      ∀ x ∈ parts.map (fun p => p.1.headI), x ∉ seen) := by
  intro parts
  induction parts with
  | nil => intro seen; simp
  | cons p ps ih =>
      intro seen
      by_cases hc : seen.contains p.1.headI
      · rw [List.foldl_cons]
        simp only [hc, if_true, Bool.false_eq_true, if_false]
        rw [commonPrefix_foldl_true]
        simp only [List.map_cons, List.nodup_cons]
        constructor
        · intro hfalse; cases hfalse
        · rintro ⟨-, hall⟩
          exact absurd (List.mem_of_elem_eq_true hc)
            (hall p.1.headI (List.mem_cons_self _ _))
      · rw [List.foldl_cons]
        simp only [hc, Bool.false_eq_true, if_false]
        rw [ih]
        simp only [List.map_cons, List.nodup_cons, List.mem_cons]
        constructor
        · rintro ⟨hnd, hall⟩
          refine ⟨⟨fun hx => (hall _ hx (Or.inl rfl)).elim, hnd⟩, ?_⟩
          rintro x (rfl | hx)
          · exact fun hmem => hc (List.elem_eq_true_of_mem hmem)
          · exact fun hmem => hall x hx (Or.inr hmem)
        · rintro ⟨⟨hnotin, hnd⟩, hall⟩
          refine ⟨hnd, ?_⟩
          rintro x hx (rfl | hmem)
          · exact hnotin hx
          · exact hall x (Or.inr hx) hmem

/-- The fast regime fires exactly when no two sort parts share a top-level
field name. -/
theorem hasPartsWithCommonPrefix_iff (pattern : List (List String × Bool)) :
    hasPartsWithCommonPrefix pattern = false ↔
      (pattern.map (fun p => p.1.headI)).Nodup := by
  unfold hasPartsWithCommonPrefix commonPrefixFold
  rw [commonPrefix_foldl_false]
  simp

/-- C6: A sort node picks the fast per-part regime exactly when no two
sort parts share a top-level field name; otherwise it emits a single
`generateSortKey(sortSpec, result)` sort-key slot ordered ascending.  In
the fast regime the sort operator orders by one slot per part with the
part's own direction. -/
theorem sort_regime_selection (ctx : BuildCtx) (pattern : List (List String × Bool))
    (lim mm : Nat) (child : QSN) (reqs : PlanStageReqs) (st : BuildSt)
    (stage : PhysStage) (o : PlanStageSlots) (st2 : BuildSt)
    (h : build ctx (.sort pattern lim mm child) reqs st = .ok (stage, o, st2)) :
    (hasPartsWithCommonPrefix pattern = false ↔
      (pattern.map (fun p => p.1.headI)).Nodup) ∧
    ∃ inner orderBy dirs vals,
      stage = .sortStage inner orderBy dirs vals
        (if lim ≠ 0 then some lim else none) mm ctx.allowDiskUse ∧
      (hasPartsWithCommonPrefix pattern = false →
        dirs = pattern.map (fun p => if p.2 then SortDir.asc else SortDir.desc) ∧
        orderBy.length = pattern.length) ∧
      (hasPartsWithCommonPrefix pattern = true →
        dirs = [SortDir.asc] ∧
        ∃ sk rs prev, orderBy = [sk] ∧
          inner = .project [(sk, makeFunction "generateSortKey"
            [.constOpaque "sortSpec", makeVariable rs])] prev) := by
  refine ⟨hasPartsWithCommonPrefix_iff pattern, ?_⟩
  rw [build.eq_def] at h
  rw [if_neg (by simp [isTailableRewriteTarget])] at h
  dsimp only at h
  split at h
  · exact absurd h (by simp)
  · split at h
    · exact absurd h (by simp)
    · split at h
      · exact absurd h (by simp)
      · next s0 co st0 hc =>
          unfold buildSortRest at h
          split at h
          · exact absurd h (by simp)
          · next rs hrs =>
            simp only [genSlot] at h
            split at h
            case isTrue hfastcond =>
              have hfast : hasPartsWithCommonPrefix pattern = false := by
                simpa using hfastcond
              simp only [Except.ok.injEq, Prod.mk.injEq] at h
              obtain ⟨h1, h2, h3⟩ := h
              subst h1
              refine ⟨_, _, _, _, rfl, ?_, ?_⟩
              · intro hdum
                exact ⟨rfl, by
                  simp [sortKeyTraversals_len, List.length_zip, sortFieldProjections_len]⟩
              · intro hcontra
                rw [hfast] at hcontra
                cases hcontra
            case isFalse hslowcond =>
              have hslow : hasPartsWithCommonPrefix pattern = true := by
                simpa using hslowcond
              simp only [Except.ok.injEq, Prod.mk.injEq] at h
              obtain ⟨h1, h2, h3⟩ := h
              subst h1
              refine ⟨_, _, _, _, rfl, ?_, ?_⟩
              · intro hcontra
                rw [hslow] at hcontra
                cases hcontra
              · intro hdum
                exact ⟨rfl, st0.slotGen, rs, s0, rfl, rfl⟩

/-- Witness for the sort-regime theorem: a two-part sort on `a`
(ascending) and `b` (descending) over a collection scan, which picks the
fast regime with one order-by slot per part. -/
theorem sort_regime_selection_witness :
    (hasPartsWithCommonPrefix [((["a"] : List String), true), (["b"], false)] = false ↔
      (([((["a"] : List String), true), (["b"], false)]).map
        (fun p => p.1.headI)).Nodup) ∧
    ∃ inner orderBy dirs vals,
      (okStage (build ⟨false, false, false, []⟩
          (.sort [(["a"], true), (["b"], false)] 0 100 (.collScan false false false))
          (PlanStageReqs.empty.set .result) ⟨1, 1, 1, []⟩)).getD .coScan
        = .sortStage inner orderBy dirs vals
          (if (0 : Nat) ≠ 0 then some 0 else none) 100
          (⟨false, false, false, []⟩ : BuildCtx).allowDiskUse ∧
      (hasPartsWithCommonPrefix [((["a"] : List String), true), (["b"], false)] = false →
        dirs = ([((["a"] : List String), true), (["b"], false)]).map
          (fun p => if p.2 then SortDir.asc else SortDir.desc) ∧
        orderBy.length = ([((["a"] : List String), true), (["b"], false)]).length) ∧
      (hasPartsWithCommonPrefix [((["a"] : List String), true), (["b"], false)] = true →
        dirs = [SortDir.asc] ∧
        ∃ sk rs prev, orderBy = [sk] ∧
          inner = .project [(sk, makeFunction "generateSortKey"
            [.constOpaque "sortSpec", makeVariable rs])] prev) :=
  sort_regime_selection ⟨false, false, false, []⟩ [(["a"], true), (["b"], false)] 0 100
    (.collScan false false false) (PlanStageReqs.empty.set .result) ⟨1, 1, 1, []⟩
    ((okStage (build ⟨false, false, false, []⟩
        (.sort [(["a"], true), (["b"], false)] 0 100 (.collScan false false false))
        (PlanStageReqs.empty.set .result) ⟨1, 1, 1, []⟩)).getD .coScan)
    ((okOutputs (build ⟨false, false, false, []⟩
        (.sort [(["a"], true), (["b"], false)] 0 100 (.collScan false false false))
        (PlanStageReqs.empty.set .result) ⟨1, 1, 1, []⟩)).getD PlanStageSlots.empty)
    ((okState (build ⟨false, false, false, []⟩
        (.sort [(["a"], true), (["b"], false)] 0 100 (.collScan false false false))
        (PlanStageReqs.empty.set .result) ⟨1, 1, 1, []⟩)).getD ⟨0, 0, 0, []⟩)
    rfl

/-! ## C7: the parallel-arrays guard -/

/-- The sort-key traversal keeps the input subtree, so any embedded fail
expression survives. -/
theorem sortKeyTraversalAux_hasFail (c : Nat) : ∀ (suffix : List String)
    (stage : PhysStage) (slot : SlotId) (dir : SortDir) (top : Bool)
    (cs : Option SlotId) (st : BuildSt),
    stageHasFail c stage = true →
    stageHasFail c (generateSortKeyTraversalAux stage slot suffix dir top cs st).2.1
      = true := by
  intro suffix
  cases suffix with
  | nil => intro stage slot dir top cs st h; simpa [generateSortKeyTraversalAux] using h
  | cons f rest =>
      intro stage slot dir top cs st h
      cases top <;>
        simp [generateSortKeyTraversalAux, stageHasFail, projsHasFail, genSlot, h]

/-- The per-part traversal loop keeps the input subtree. -/
theorem sortKeyTraversals_hasFail (c : Nat) :
    ∀ (parts : List (SlotId × (List String × Bool))) (cs : Option SlotId)
      (stage : PhysStage) (st : BuildSt),
    stageHasFail c stage = true →
    stageHasFail c (sortKeyTraversals parts cs stage st).2.1 = true := by
  intro parts
  induction parts with
  | nil => intro cs stage st h; simpa [sortKeyTraversals] using h
  | cons p ps ih =>
      intro cs stage st h
      obtain ⟨slot, path, asc⟩ := p
      simp only [sortKeyTraversals, generateSortKeyTraversal]
      exact ih _ _ _ (sortKeyTraversalAux_hasFail c path stage slot _ true cs st h)

/-- With two or more parts the guard generator returns a check containing
the `BadValue` fail. -/
theorem failOnParallelArrays_some (parts : List (SlotId × List String)) (g : Nat)
    (h2 : 2 ≤ parts.length) :
    ∃ e, (failOnParallelArrays parts g).1 = some e ∧
      exprHasFail badValueCode e = true := by
  match parts with
  | [] => simp at h2
  | [a] => simp at h2
  | [a, b] =>
      refine ⟨makeBinaryOp .logicOr (makeNot (generateArrayCheckForSort a.1 a.2 g).1)
        (makeBinaryOp .logicOr
          (makeNot (generateArrayCheckForSort b.1 b.2
            (generateArrayCheckForSort a.1 a.2 g).2).1)
          (.efail badValueCode "cannot sort with keys that are parallel arrays")),
        ?_, ?_⟩
      · simp [failOnParallelArrays]
      · simp [exprHasFail, makeBinaryOp, makeNot, badValueCode]
  | a :: b :: c2 :: rest =>
      refine ⟨makeBinaryOp .logicOr
        (makeBinaryOp .lessEq
          (parallelArraysNum (b :: c2 :: rest)
            (makeBinaryOp .cmp3w (generateArrayCheckForSort a.1 a.2 g).1 (.constBool false))
            (generateArrayCheckForSort a.1 a.2 g).2).1
          (.constInt32 1))
        (.efail badValueCode "cannot sort with keys that are parallel arrays"),
        ?_, ?_⟩
      · simp [failOnParallelArrays]
      · simp [exprHasFail, makeBinaryOp, badValueCode]

/-- C7 counterexample to the original wording: a two-part sort pattern
whose parts share the top-level field `a` builds successfully with no
`BadValue` fail anywhere in the emitted plan — the parallel-arrays guard
belongs to the fast regime only. -/
theorem sort_common_prefix_no_parallel_guard :
    2 ≤ ([((["a", "b"] : List String), true), (["a", "c"], true)]).length ∧
    (match build ⟨false, false, false, []⟩
        (.sort [(["a", "b"], true), (["a", "c"], true)] 0 100
          (.collScan false false false))
        (PlanStageReqs.empty.set .result) ⟨1, 1, 1, []⟩ with
     | .ok (stage, _, _) => !(stageHasFail badValueCode stage)
     | .error _ => false) = true :=
  ⟨by decide, by decide⟩

/-- C7, amended: in the fast sort regime (no shared top-level field name),
a pattern of two or more parts gets a runtime parallel-arrays check that
fails with `BadValue`: the two-disjunct short form for exactly two parts,
the sum-compare form for three or more, and the built plan contains the
`BadValue` fail; no check at all is generated for patterns of at most one
part. -/
theorem parallel_arrays_guard (ctx : BuildCtx) (pattern : List (List String × Bool))
    (lim mm : Nat) (child : QSN) (reqs : PlanStageReqs) (st : BuildSt)
    (stage : PhysStage) (o : PlanStageSlots) (st2 : BuildSt)
    (hfast : hasPartsWithCommonPrefix pattern = false)
    (hlen : 2 ≤ pattern.length)
    (h : build ctx (.sort pattern lim mm child) reqs st = .ok (stage, o, st2)) :
    (∀ (parts : List (SlotId × List String)) (g : Nat), parts.length ≤ 1 →
      (failOnParallelArrays parts g).1 = none) ∧
    (∀ (a b : SlotId × List String) (g : Nat),
      (failOnParallelArrays [a, b] g).1 = some (makeBinaryOp .logicOr
        (makeNot (generateArrayCheckForSort a.1 a.2 g).1)
        (makeBinaryOp .logicOr
          (makeNot (generateArrayCheckForSort b.1 b.2
            (generateArrayCheckForSort a.1 a.2 g).2).1)
          (.efail badValueCode "cannot sort with keys that are parallel arrays")))) ∧
    (∀ (a b c2 : SlotId × List String) (rest : List (SlotId × List String)) (g : Nat),
      (failOnParallelArrays (a :: b :: c2 :: rest) g).1 = some (makeBinaryOp .logicOr
        (makeBinaryOp .lessEq
          (parallelArraysNum (b :: c2 :: rest)
            (makeBinaryOp .cmp3w (generateArrayCheckForSort a.1 a.2 g).1
              (.constBool false))
            (generateArrayCheckForSort a.1 a.2 g).2).1
          (.constInt32 1))
        (.efail badValueCode "cannot sort with keys that are parallel arrays"))) ∧
    stageHasFail badValueCode stage = true := by
  refine ⟨?_, ?_, ?_, ?_⟩
  · intro parts g hp
    match parts with
    | [] => rfl
    | [a] => rfl
    | a :: b :: r => simp at hp
  · intro a b g
    simp [failOnParallelArrays]
  · intro a b c2 rest g
    simp [failOnParallelArrays]
  · rw [build.eq_def] at h
    rw [if_neg (by simp [isTailableRewriteTarget])] at h
    dsimp only at h
    split at h
    · exact absurd h (by simp)
    · split at h
      · exact absurd h (by simp)
      · split at h
        · exact absurd h (by simp)
        · next s0 co st0 hc =>
            unfold buildSortRest at h
            split at h
            · exact absurd h (by simp)
            · next rs hrs =>
              simp only [genSlot] at h
              split at h
              case isTrue hfastcond =>
                obtain ⟨e, hge, hef⟩ := failOnParallelArrays_some
                  ((sortFieldProjections pattern rs st0.slotGen).1.zip
                    (pattern.map Prod.fst)) st0.frameGen
                  (by simp [List.length_zip, sortFieldProjections_len]; omega)
                rw [hge] at h
                simp only [Except.ok.injEq, Prod.mk.injEq] at h
                obtain ⟨h1, h2, h3⟩ := h
                subst h1
                simp only [stageHasFail]
                exact sortKeyTraversals_hasFail badValueCode _ _ _ _
                  (by simp [stageHasFail, projsHasFail, hef])
              case isFalse hslowcond =>
                exact absurd (by rw [hfast]; rfl) hslowcond

/-- Witness for the parallel-arrays guard theorem: a fast-regime sort on
distinct fields `a`, `b` whose built plan contains the `BadValue` fail. -/
theorem parallel_arrays_guard_witness :
    hasPartsWithCommonPrefix [((["a"] : List String), true), (["b"], true)] = false ∧
    2 ≤ ([((["a"] : List String), true), (["b"], true)]).length ∧
    ((∀ (parts : List (SlotId × List String)) (g : Nat), parts.length ≤ 1 →
      (failOnParallelArrays parts g).1 = none) ∧
    (∀ (a b : SlotId × List String) (g : Nat),
      (failOnParallelArrays [a, b] g).1 = some (makeBinaryOp .logicOr
        (makeNot (generateArrayCheckForSort a.1 a.2 g).1)
        (makeBinaryOp .logicOr
          (makeNot (generateArrayCheckForSort b.1 b.2
            (generateArrayCheckForSort a.1 a.2 g).2).1)
          (.efail badValueCode "cannot sort with keys that are parallel arrays")))) ∧
    (∀ (a b c2 : SlotId × List String) (rest : List (SlotId × List String)) (g : Nat),
      (failOnParallelArrays (a :: b :: c2 :: rest) g).1 = some (makeBinaryOp .logicOr
        (makeBinaryOp .lessEq
          (parallelArraysNum (b :: c2 :: rest)
            (makeBinaryOp .cmp3w (generateArrayCheckForSort a.1 a.2 g).1
              (.constBool false))
            (generateArrayCheckForSort a.1 a.2 g).2).1
          (.constInt32 1))
        (.efail badValueCode "cannot sort with keys that are parallel arrays"))) ∧
    stageHasFail badValueCode ((okStage (build ⟨false, false, false, []⟩
      (.sort [(["a"], true), (["b"], true)] 0 100 (.collScan false false false))
      (PlanStageReqs.empty.set .result) ⟨1, 1, 1, []⟩)).getD .coScan) = true) :=
  ⟨by decide, by decide,
   parallel_arrays_guard ⟨false, false, false, []⟩ [(["a"], true), (["b"], true)] 0 100
     (.collScan false false false) (PlanStageReqs.empty.set .result) ⟨1, 1, 1, []⟩
     ((okStage (build ⟨false, false, false, []⟩
        (.sort [(["a"], true), (["b"], true)] 0 100 (.collScan false false false))
        (PlanStageReqs.empty.set .result) ⟨1, 1, 1, []⟩)).getD .coScan)
     ((okOutputs (build ⟨false, false, false, []⟩
        (.sort [(["a"], true), (["b"], true)] 0 100 (.collScan false false false))
        (PlanStageReqs.empty.set .result) ⟨1, 1, 1, []⟩)).getD PlanStageSlots.empty)
     ((okState (build ⟨false, false, false, []⟩
        (.sort [(["a"], true), (["b"], true)] 0 100 (.collScan false false false))
        (PlanStageReqs.empty.set .result) ⟨1, 1, 1, []⟩)).getD ⟨0, 0, 0, []⟩)
     (by decide) (by decide) rfl⟩

end StageBuilder
